import Mathlib

/-!
Verification of the WhatsApp chat parser and analytics engine
(`whattrace`): a shallow embedding of the parser source
(`src/unnamed/part_000`, both the richer multi-grammar class and the
simpler fixed-pattern class), of the analytics functions
(`src/analytics.js`) and the emoji utilities (`src/utils.js`), with
theorems settling the specification claims.

Strings are modelled as `List Char` (Unicode code points, the same view
JavaScript regexes take with per-code-unit handling made explicit where
it matters).  JavaScript numbers arising from `Number(...)`/`parseInt`
on possibly non-numeric text are modelled as `Option Int` with `none`
playing the role of `NaN`; `Date` values are modelled as `Option Int`
milliseconds since the epoch (`none` = Invalid Date), with the host
timezone taken to be UTC.

The regular expressions of the source are embedded as hand-written
backtracking matchers.  Every greedy bounded repetition `\d{lo,hi}` in
the source patterns is followed by an element that cannot match a
digit, so the maximal-munch implementation `digitsRange` is exactly the
backtracking semantics; every place where real backtracking can change
the outcome (optional seconds, optional meridiem, optional closing
bracket, optional dash, the greedy `\s*` feeding a lazy `[^:]+?`) is
implemented with explicit ordered alternatives.  Each matcher carries
the source regex in a comment.
-/

/-- ECMAScript whitespace (`\s`, also the class used by `String.trim`):
space, tab, LF, VT, FF, CR, NBSP, Ogham space, the U+2000 block,
LS, PS, NNBSP, MMSP, ideographic space and the BOM. -/
def jsWs (c : Char) : Bool :=
  c == ' ' || c == '\t' || c == '\n' || c.toNat == 0xb || c.toNat == 0xc ||
  c == '\r' || c.toNat == 0xa0 || c.toNat == 0x1680 ||
  (0x2000 ≤ c.toNat && c.toNat ≤ 0x200a) ||
  c.toNat == 0x2028 || c.toNat == 0x2029 || c.toNat == 0x202f ||
  c.toNat == 0x205f || c.toNat == 0x3000 || c.toNat == 0xfeff

/-- ECMAScript `.` (no `s` flag): any character except a line terminator. -/
def jsDot (c : Char) : Bool :=
  !(c == '\n' || c == '\r' || c.toNat == 0x2028 || c.toNat == 0x2029)

/-- `String.prototype.trim`. -/
def jsTrim (s : List Char) : List Char :=
  ((s.dropWhile jsWs).reverse.dropWhile jsWs).reverse

/-- Numeric value of a decimal digit string (the value `Number`/`parseInt`
give to the pure-digit strings produced by the date/time regex groups). -/
def digitsToNat (ds : List Char) : Nat :=
  ds.foldl (fun a c => 10 * a + (c.toNat - '0'.toNat)) 0

/-- `Number(s)` restricted to the argument shapes that occur in this
program (the empty string, pure decimal digit strings, and
non-numeric text); `none` models `NaN`. -/
def jsToNumber (s : List Char) : Option Int :=
  let t := jsTrim s
  if t.isEmpty then some 0
  else if t.all Char.isDigit then some (digitsToNat t)
  else none

/-- `a > b` on JS numbers (`NaN` compares false). -/
def jsGtC (a : Option Int) (b : Int) : Bool :=
  match a with
  | some v => b < v
  | none => false

/-- `a < b` on JS numbers (`NaN` compares false). -/
def jsLtC (a : Option Int) (b : Int) : Bool :=
  match a with
  | some v => v < b
  | none => false

/-- Split on every single character satisfying `p`
(JS `split(/[c]/)`, no `+`: adjacent separators yield empty parts). -/
def splitEach (p : Char → Bool) : List Char → List (List Char)
  | [] => [[]]
  | c :: r =>
    if p c then [] :: splitEach p r
    else
      match splitEach p r with
      | t :: ts => (c :: t) :: ts
      | [] => [[c]]

theorem dropWhile_len_le {α : Type} (p : α → Bool) (l : List α) :
    (l.dropWhile p).length ≤ l.length := by
  induction l with
  | nil => simp [List.dropWhile]
  | cons c r ih =>
    simp only [List.dropWhile]
    cases p c
    · simp
    · simpa using Nat.le_succ_of_le ih

/-- Split on maximal runs of characters satisfying `p`
(JS `split(/[c]+/)`): a right fold whose state is the groups built so
far plus a flag telling whether the character just to the right was a
separator (so that a separator run contributes a single boundary). -/
def splitRuns (p : Char → Bool) (l : List Char) : List (List Char) :=
  (l.foldr
    (fun c st =>
      if p c then
        if st.2 then st else ([] :: st.1, true)
      else
        match st.1 with
        | g :: gs => ((c :: g) :: gs, false)
        | [] => ([[c]], false))
    ([[]], false)).1

/-- Join with a single space (`Array.prototype.join(' ')`). -/
def joinSpace : List (List Char) → List Char
  | [] => []
  | [x] => x
  | x :: xs => x ++ ' ' :: joinSpace xs

/-- Substring containment (`String.prototype.includes`). -/
def containsSub (needle hay : List Char) : Bool :=
  hay.tails.any (fun t => needle.isPrefixOf t)

/-- `toLowerCase` restricted to ASCII and Latin-1 letters (identity on
the other characters appearing in the media phrase lists). -/
def jsToLower (c : Char) : Char :=
  if 'A' ≤ c && c ≤ 'Z' then Char.ofNat (c.toNat + 32)
  else if 0xc0 ≤ c.toNat && c.toNat ≤ 0xde && c.toNat ≠ 0xd7 then
    Char.ofNat (c.toNat + 32)
  else c

/-- Case-insensitive substring test: `/phrase/i.test(content)`. -/
def containsCI (needle hay : List Char) : Bool :=
  containsSub (needle.map jsToLower) (hay.map jsToLower)

/-- `String.prototype.length` (UTF-16 code units). -/
def utf16Length (s : List Char) : Nat :=
  (s.map (fun c => if c.toNat ≥ 0x10000 then 2 else 1)).sum

/-! ### Gregorian calendar arithmetic

`new Date(y, m, d, h, mi, s)` normalises its fields by pure integer
arithmetic (months roll into years, oversized days/hours roll over).
`daysFromCivil`/`civilFromDays` are the standard bijection between
(year, month 1-12, day) triples and days since 1970-01-01. -/

/-- Days since the epoch of the civil date `(y, m, d)`, for `1 ≤ m ≤ 12`
(`d` may be out of range; it simply offsets). -/
def daysFromCivil (y m d : Int) : Int :=
  let y' := if m ≤ 2 then y - 1 else y
  let era := Int.fdiv y' 400
  let yoe := y' - era * 400
  let mp := if 2 < m then m - 3 else m + 9
  let doy := (153 * mp + 2).fdiv 5 + d - 1
  let doe := yoe * 365 + yoe.fdiv 4 - yoe.fdiv 100 + doy
  era * 146097 + doe - 719468

/-- Civil date `(y, m 1-12, d)` of a count of days since the epoch. -/
def civilFromDays (z : Int) : Int × Int × Int :=
  let z' := z + 719468
  let era := Int.fdiv z' 146097
  let doe := z' - era * 146097
  let yoe := (doe - doe.fdiv 1460 + doe.fdiv 36524 - doe.fdiv 146096).fdiv 365
  let y := yoe + era * 400
  let doy := doe - (365 * yoe + yoe.fdiv 4 - yoe.fdiv 100)
  let mp := (5 * doy + 2).fdiv 153
  let d := doy - (153 * mp + 2).fdiv 5 + 1
  let m := if mp < 10 then mp + 3 else mp - 9
  (if m ≤ 2 then y + 1 else y, m, d)

/-- `new Date(year, monthIndex, day, hours, minutes, seconds).getTime()`
(`none` = an Invalid Date, produced when any argument is `NaN`); the
host timezone is modelled as UTC.  `monthIndex` counts from 0 and may
be any integer (rolls into the year). -/
def jsMakeDate (y mo d h mi s : Option Int) : Option Int := do
  let y ← y
  let mo ← mo
  let d ← d
  let h ← h
  let mi ← mi
  let s ← s
  let yAdj := y + mo.fdiv 12
  let mAdj := mo.emod 12
  let days := daysFromCivil yAdj (mAdj + 1) d
  pure (days * 86400000 + h * 3600000 + mi * 60000 + s * 1000)

/-- `Date.prototype.getHours` (UTC model). -/
def jsGetHours (ms : Option Int) : Option Int :=
  ms.map (fun m => (m.fdiv 3600000).emod 24)

/-- `Date.prototype.getDay` (0 = Sunday; the epoch was a Thursday). -/
def jsGetDay (ms : Option Int) : Option Int :=
  ms.map (fun m => (m.fdiv 86400000 + 4).emod 7)

/-- `Date.prototype.getDate`. -/
def jsGetDate (ms : Option Int) : Option Int :=
  ms.map (fun m => (civilFromDays (m.fdiv 86400000)).2.2)

/-- `Date.prototype.getMonth` (0-based). -/
def jsGetMonth (ms : Option Int) : Option Int :=
  ms.map (fun m => (civilFromDays (m.fdiv 86400000)).2.1 - 1)

/-- `Date.prototype.getFullYear`. -/
def jsGetFullYear (ms : Option Int) : Option Int :=
  ms.map (fun m => (civilFromDays (m.fdiv 86400000)).1)

/-! ### Regex building blocks

Scanners over `List Char` implementing the pieces the source patterns
are concatenated from.  Each returns the consumed characters together
with the rest of the input (or an ordered list of such candidate
splits where genuine backtracking can change the outcome). -/

/-- Greedy `\d{lo,hi}`.  In every use site below the following regex
element can never match a digit, so taking the maximal digit run (and
failing when it is shorter than `lo` or longer than `hi`) is exactly
the backtracking semantics. -/
def digitsRange (lo hi : Nat) (s : List Char) : Option (List Char × List Char) :=
  let d := s.takeWhile Char.isDigit
  if lo ≤ d.length && d.length ≤ hi then some (d, s.dropWhile Char.isDigit)
  else none

/-- `\d{n}` (an exact repetition consumes exactly `n` characters). -/
def digitsExact (n : Nat) (s : List Char) : Option (List Char × List Char) :=
  let d := s.take n
  if d.length = n && d.all Char.isDigit then some (d, s.drop n) else none

/-- The date separator class `[\/\-\.]`. -/
def sep3 (c : Char) : Bool := c == '/' || c == '-' || c == '.'

/-- The dash class `[-–—]` (hyphen, en dash, em dash). -/
def dash3 (c : Char) : Bool := c == '-' || c.toNat == 0x2013 || c.toNat == 0x2014

/-- The dash class `[-–]` of the simpler parser (hyphen, en dash). -/
def dash2 (c : Char) : Bool := c == '-' || c.toNat == 0x2013

/-- Split a string at its first `':'` (the basis of the lazy
`([^:]+?):` idiom: the sender group cannot contain a colon, so the
colon the pattern consumes is necessarily the first one). -/
def breakAtColon : List Char → Option (List Char × List Char)
  | [] => none
  | c :: r =>
    if c = ':' then some ([], r)
    else (breakAtColon r).map (fun p => (c :: p.1, p.2))

/-- `\s*(.*)$`: the greedy `\s*` takes the maximal whitespace run; the
rest must then consist of `.`-matchable characters only (shortening the
`\s*` run can never help, since the remainder only grows).  Returns the
captured `(.*)` group. -/
def tailContent (t : List Char) : Option (List Char) :=
  let u := t.dropWhile jsWs
  if u.all jsDot then some u else none

/-- `\s*([^:]+?):\s*(.*)$`.  The sender group ends at the first colon
`c` of `t` (it cannot contain one).  The greedy `\s*` first takes the
whole whitespace prefix `W`; if the colon sits right at its end the
engine backtracks one step, yielding a single-whitespace sender.
Returns `(sender, content)`. -/
def tailSenderContent (t : List Char) : Option (List Char × List Char) :=
  match breakAtColon t with
  | none => none
  | some (before, after) =>
    match (if (t.takeWhile jsWs).length < before.length then
             some (before.drop (t.takeWhile jsWs).length)
           else if 0 < before.length then some (before.drop (before.length - 1))
           else none) with
    | none => none
    | some sender =>
      match tailContent after with
      | none => none
      | some content => some (sender, content)

/-- `\s*[-–—]\s*([^:]+?):\s*(.*)$` (required dash; the dash can only sit
at the end of the maximal whitespace run). -/
def tailReqDash (dash : Char → Bool) (t : List Char) : Option (List Char × List Char) :=
  match t.dropWhile jsWs with
  | c :: r => if dash c then tailSenderContent r else none
  | [] => none

/-- `\s*[-–—]?\s*([^:]+?):\s*(.*)$` (optional dash).  The engine first
tries to consume the dash (which can only sit at the end of the
whitespace run); if that whole branch fails it falls back to matching
without a dash, which collapses to `tailSenderContent` on the original
input (the dash character may then end up inside the sender). -/
def tailOptDash (dash : Char → Bool) (t : List Char) : Option (List Char × List Char) :=
  match t.dropWhile jsWs with
  | c :: r => if dash c then tailSenderContent r <|> tailSenderContent t
              else tailSenderContent t
  | [] => tailSenderContent t

/-- System-message version of `tailReqDash`: `\s*[-–—]\s*(.*)$`. -/
def tailSysReqDash (dash : Char → Bool) (t : List Char) : Option (List Char) :=
  match t.dropWhile jsWs with
  | c :: r => if dash c then tailContent r else none
  | [] => none

/-- System-message version of `tailOptDash`: `\s*[-–—]?\s*(.*)$`. -/
def tailSysOptDash (dash : Char → Bool) (t : List Char) : Option (List Char) :=
  match t.dropWhile jsWs with
  | c :: r => if dash c then tailContent r <|> tailContent t
              else tailContent t
  | [] => tailContent t

/-- `,?\s+` (the optional comma is forced when present: `\s` cannot
match `','`, so the no-comma branch fails anyway). -/
def commaWs (s : List Char) : Option (List Char × List Char) :=
  match s with
  | ',' :: r =>
    if (r.takeWhile jsWs).isEmpty then none
    else some (',' :: r.takeWhile jsWs, r.dropWhile jsWs)
  | _ =>
    if (s.takeWhile jsWs).isEmpty then none
    else some (s.takeWhile jsWs, s.dropWhile jsWs)

/-- The class `[,\s]`. -/
def commaOrWs (c : Char) : Bool := c == ',' || jsWs c

/-- `[,\s]+` (greedy; the follower is always a digit, never in the class). -/
def commaWsCls (s : List Char) : Option (List Char × List Char) :=
  let w := s.takeWhile commaOrWs
  if w.isEmpty then none else some (w, s.dropWhile commaOrWs)

/-- `\s+` (greedy; the follower is always a digit). -/
def ws1 (s : List Char) : Option (List Char × List Char) :=
  let w := s.takeWhile jsWs
  if w.isEmpty then none else some (w, s.dropWhile jsWs)

/-- `\d{w1}[\/\-\.]\d{w2}[\/\-\.]\d{w3}` with the given width bounds:
the date part of a timestamp.  Deterministic (each digit field is
followed by a separator or a non-digit). -/
def datePart (lo1 hi1 lo2 hi2 lo3 hi3 : Nat) (sep : Char → Bool) (s : List Char) :
    Option (List Char × List Char) := do
  let (d1, r1) ← digitsRange lo1 hi1 s
  match r1 with
  | c1 :: r2 =>
    if sep c1 then do
      let (d2, r3) ← digitsRange lo2 hi2 r2
      match r3 with
      | c2 :: r4 =>
        if sep c2 then do
          let (d3, r5) ← digitsRange lo3 hi3 r4
          pure (d1 ++ c1 :: d2 ++ c2 :: d3, r5)
        else none
      | [] => none
    else none
  | [] => none

/-- `\s?[AP]M` (uppercase only — the line patterns carry no `i` flag):
candidate matches in engine priority order (space-consuming branch
first, then the spaceless branch). -/
def merCands (s : List Char) : List (List Char × List Char) :=
  (match s with
   | c0 :: c1 :: c2 :: r =>
     if jsWs c0 && (c1 == 'A' || c1 == 'P') && c2 == 'M' then [([c0, c1, c2], r)]
     else []
   | _ => []) ++
  (match s with
   | c1 :: c2 :: r =>
     if (c1 == 'A' || c1 == 'P') && c2 == 'M' then [([c1, c2], r)]
     else []
   | _ => [])

/-- `\d{1,2}:\d{2}(?::\d{2})?` and, when `withMer` is set,
`(?:\s?[AP]M)?`: the time part of a timestamp.  Returns candidate
`(consumed, rest)` splits in engine priority order (seconds consumed
before skipped, meridiem consumed before skipped). -/
def secCands (base r3 : List Char) : List (List Char × List Char) :=
  match r3 with
  | ':' :: r4 =>
    match digitsExact 2 r4 with
    | some (ss, r5) => [(base ++ ':' :: ss, r5), (base, r3)]
    | none => [(base, r3)]
  | _ => [(base, r3)]

def timeCands (withMer : Bool) (s : List Char) : List (List Char × List Char) :=
  match digitsRange 1 2 s with
  | none => []
  | some (hd, r1) =>
    match r1 with
    | ':' :: r2 =>
      match digitsExact 2 r2 with
      | none => []
      | some (mins, r3) =>
        if withMer then
          (secCands (hd ++ ':' :: mins) r3).flatMap (fun p =>
            (merCands p.2).map (fun q => (p.1 ++ q.1, q.2)) ++ [p])
        else secCands (hd ++ ':' :: mins) r3
    | _ => []

namespace WhatsAppParser

/-! ### The richer multi-grammar parser (`src/unnamed/part_000`, first class)

`messagePatterns` / `systemMessagePatterns` in the source are ordered
lists of four regexes each; `tryParseMessage` returns the first
message-pattern match, `tryParseSystemMessage` the first
system-pattern match whose trailing content contains no colon.  Only
the capture groups the source ever reads are returned: the full
timestamp (group 1) and the last one or two groups (sender/content). -/

/-- Pattern 0 (iPhone):
`^\[(\d{1,2}[\/\-\.](\d{1,2})[\/\-\.](\d{2,4}),?\s+(\d{1,2}:\d{2}(?::\d{2})?(?:\s?[AP]M)?))\]\s*([^:]+?):\s*(.*)$`. -/
def p1msg (l : List Char) : Option (List Char × List Char × List Char) :=
  match l with
  | '[' :: r0 => do
    let (dp, r1) ← datePart 1 2 1 2 2 4 sep3 r0
    let (cw, r2) ← commaWs r1
    (timeCands true r2).findSome? (fun p =>
      match p.2 with
      | ']' :: r4 => (tailSenderContent r4).map (fun q => (dp ++ cw ++ p.1, q.1, q.2))
      | _ => none)
  | _ => none

/-- Pattern 1 (Android):
`^(\d{1,2}[\/\-\.](\d{1,2})[\/\-\.](\d{2,4}),?\s+(\d{1,2}:\d{2}(?::\d{2})?(?:\s?[AP]M)?))\s*[-–—]\s*([^:]+?):\s*(.*)$`. -/
def p2msg (l : List Char) : Option (List Char × List Char × List Char) := do
  let (dp, r1) ← datePart 1 2 1 2 2 4 sep3 l
  let (cw, r2) ← commaWs r1
  (timeCands true r2).findSome? (fun p =>
    (tailReqDash dash3 p.2).map (fun q => (dp ++ cw ++ p.1, q.1, q.2)))

/-- Pattern 2 (ISO):
`^(\d{4}[\/\-\.](\d{1,2})[\/\-\.](\d{1,2})\s+(\d{1,2}:\d{2}(?::\d{2})?))\s*[-–—]?\s*([^:]+?):\s*(.*)$`. -/
def p3msg (l : List Char) : Option (List Char × List Char × List Char) := do
  let (dp, r1) ← datePart 4 4 1 2 1 2 sep3 l
  let (w, r2) ← ws1 r1
  (timeCands false r2).findSome? (fun p =>
    (tailOptDash dash3 p.2).map (fun q => (dp ++ w ++ p.1, q.1, q.2)))

/-- Pattern 3 (flexible fallback):
`^[\[\(]?(\d{1,4}[\/\-\.](\d{1,2})[\/\-\.](\d{1,4})[,\s]+(\d{1,2}:\d{2}(?::\d{2})?(?:\s?[AP]M)?))[\]\)]?\s*[-–—]?\s*([^:]+?):\s*(.*)$`.
The optional opening bracket is forced when present (a digit can never
match it); the optional closing bracket genuinely backtracks (the
sender may start with `]`). -/
def p4msgBody (l : List Char) : Option (List Char × List Char × List Char) := do
  let (dp, r1) ← datePart 1 4 1 2 1 4 sep3 l
  let (cw, r2) ← commaWsCls r1
  (timeCands true r2).findSome? (fun p =>
    let ts := dp ++ cw ++ p.1
    let tail := fun t => (tailOptDash dash3 t).map (fun q => (ts, q.1, q.2))
    match p.2 with
    | c :: r4 => if c == ']' || c == ')' then tail r4 <|> tail p.2 else tail p.2
    | [] => tail p.2)

def p4msg (l : List Char) : Option (List Char × List Char × List Char) :=
  match l with
  | c :: r => if c == '[' || c == '(' then p4msgBody r else p4msgBody l
  | [] => p4msgBody l

/-- System pattern 0:
`^\[(\d{1,2}[\/\-\.](\d{1,2})[\/\-\.](\d{2,4}),?\s+(\d{1,2}:\d{2}(?::\d{2})?(?:\s?[AP]M)?))\]\s*(.*)$`. -/
def p1sys (l : List Char) : Option (List Char × List Char) :=
  match l with
  | '[' :: r0 => do
    let (dp, r1) ← datePart 1 2 1 2 2 4 sep3 r0
    let (cw, r2) ← commaWs r1
    (timeCands true r2).findSome? (fun p =>
      match p.2 with
      | ']' :: r4 => (tailContent r4).map (fun c => (dp ++ cw ++ p.1, c))
      | _ => none)
  | _ => none

/-- System pattern 1:
`^(\d{1,2}[\/\-\.](\d{1,2})[\/\-\.](\d{2,4}),?\s+(\d{1,2}:\d{2}(?::\d{2})?(?:\s?[AP]M)?))\s*[-–—]\s*(.*)$`. -/
def p2sys (l : List Char) : Option (List Char × List Char) := do
  let (dp, r1) ← datePart 1 2 1 2 2 4 sep3 l
  let (cw, r2) ← commaWs r1
  (timeCands true r2).findSome? (fun p =>
    (tailSysReqDash dash3 p.2).map (fun c => (dp ++ cw ++ p.1, c)))

/-- System pattern 2:
`^(\d{4}[\/\-\.](\d{1,2})[\/\-\.](\d{1,2})\s+(\d{1,2}:\d{2}(?::\d{2})?))\s*[-–—]?\s*(.*)$`. -/
def p3sys (l : List Char) : Option (List Char × List Char) := do
  let (dp, r1) ← datePart 4 4 1 2 1 2 sep3 l
  let (w, r2) ← ws1 r1
  (timeCands false r2).findSome? (fun p =>
    (tailSysOptDash dash3 p.2).map (fun c => (dp ++ w ++ p.1, c)))

/-- System pattern 3:
`^[\[\(]?(\d{1,4}[\/\-\.](\d{1,2})[\/\-\.](\d{1,4})[,\s]+(\d{1,2}:\d{2}(?::\d{2})?(?:\s?[AP]M)?))[\]\)]?\s*(.*)$`. -/
def p4sysBody (l : List Char) : Option (List Char × List Char) := do
  let (dp, r1) ← datePart 1 4 1 2 1 4 sep3 l
  let (cw, r2) ← commaWsCls r1
  (timeCands true r2).findSome? (fun p =>
    let ts := dp ++ cw ++ p.1
    let tail := fun t => (tailContent t).map (fun c => (ts, c))
    match p.2 with
    | c :: r4 => if c == ']' || c == ')' then tail r4 <|> tail p.2 else tail p.2
    | [] => tail p.2)

def p4sys (l : List Char) : Option (List Char × List Char) :=
  match l with
  | c :: r => if c == '[' || c == '(' then p4sysBody r else p4sysBody l
  | [] => p4sysBody l

/-- `tryParseMessage`: the first matching message pattern, with its
index and the captures the source reads (`match[1]`, sender, content). -/
def tryParseMessage (l : List Char) : Option (Nat × List Char × List Char × List Char) :=
  match p1msg l with
  | some (t, s, c) => some (0, t, s, c)
  | none =>
  match p2msg l with
  | some (t, s, c) => some (1, t, s, c)
  | none =>
  match p3msg l with
  | some (t, s, c) => some (2, t, s, c)
  | none =>
  match p4msg l with
  | some (t, s, c) => some (3, t, s, c)
  | none => none

/-- `tryParseSystemMessage`: the first system pattern that matches with
a colon-free trailing content (a colon-bearing content is rejected and
the next pattern is tried). -/
def tryParseSystemMessage (l : List Char) : Option (Nat × List Char × List Char) :=
  let chk := fun (i : Nat) (r : Option (List Char × List Char)) =>
    match r with
    | some (t, c) => if c.contains ':' then none else some (i, t, c)
    | none => none
  chk 0 (p1sys l) <|> chk 1 (p2sys l) <|> chk 2 (p3sys l) <|> chk 3 (p4sys l)

end WhatsAppParser

section PatternChecks

/-- basic sanity: Android dash format. -/
example : WhatsAppParser.tryParseMessage "25/03/2024, 10:00 - Alice: hi".data =
    some (1, "25/03/2024, 10:00".data, "Alice".data, "hi".data) := by decide

/-- iPhone bracket format with seconds and meridiem. -/
example : WhatsAppParser.tryParseMessage "[25/03/2024, 10:00:05 PM] Bob: yo".data =
    some (0, "25/03/2024, 10:00:05 PM".data, "Bob".data, "yo".data) := by decide

/-- ISO format. -/
example : WhatsAppParser.tryParseMessage "2024-03-25 10:00 - Bob: yo".data =
    some (2, "2024-03-25 10:00".data, "Bob".data, "yo".data) := by decide

/-- no dash, slash date: only the flexible fallback matches. -/
example : WhatsAppParser.tryParseMessage "25/03/2024, 10:00 Alice: hi".data =
    some (3, "25/03/2024, 10:00".data, "Alice".data, "hi".data) := by decide

/-- system message: no sender colon. -/
example : WhatsAppParser.tryParseSystemMessage
    "25/03/2024, 10:00 - Messages are end-to-end encrypted".data =
    some (1, "25/03/2024, 10:00".data, "Messages are end-to-end encrypted".data) := by decide

/-- a colon in the trailing content rejects the system interpretation. -/
example : WhatsAppParser.tryParseSystemMessage "25/03/2024, 10:00 - Alice: hi".data =
    none := by decide

/-- lazy-sender backtracking: a colon right after the whitespace run
makes the engine give back one whitespace character as the sender. -/
example : WhatsAppParser.tryParseMessage "[25/03/2024, 10:00]  : hi".data =
    some (0, "25/03/2024, 10:00".data, " ".data, "hi".data) := by decide

/-- a dash after a bracketed timestamp lands inside pattern 0's sender. -/
example : WhatsAppParser.tryParseMessage "[25/03/2024, 10:00] - Alice: hi".data =
    some (0, "25/03/2024, 10:00".data, "- Alice".data, "hi".data) := by decide

end PatternChecks

namespace WhatsAppParser

/-- The three values `detectDateFormat` can return
(`'DD/MM/YYYY'`, `'MM/DD/YYYY'`, `'YYYY-MM-DD'`). -/
inductive DateFmt where
  | ddmmyyyy
  | mmddyyyy
  | isoYmd
deriving DecidableEq, Repr

/-- `parseTimestampString`: split the full timestamp on `[,\s]+` runs;
the first part is the date, the remaining parts joined by a single
space are the time. -/
def parseTimestampString (ts : List Char) : List Char × List Char :=
  let parts := splitRuns commaOrWs ts
  (parts.headD [], joinSpace parts.tail)

/-- `[AP]` under the `i` flag. -/
def apLetter (c : Char) : Bool := c == 'A' || c == 'a' || c == 'P' || c == 'p'

/-- `M` under the `i` flag. -/
def mLetter (c : Char) : Bool := c == 'M' || c == 'm'

/-- The optional seconds group `(?::(\d{2}))?` of the time regex: the
greedy optional is deterministic here (the regex ends after the
optional groups, so consuming whenever possible is exact). -/
def timeSec (r3 : List Char) : Option (List Char) × List Char :=
  match r3 with
  | ':' :: rr =>
    match digitsExact 2 rr with
    | some (ss, r4) => (some ss, r4)
    | none => (none, r3)
  | _ => (none, r3)

/-- The optional meridiem group `(?:\s?([AP]M))?` under `/i`: the
space-consuming branch is tried first, then the spaceless one. -/
def timeMer (rest : List Char) : Option (Char × Char) :=
  (match rest with
   | c0 :: c1 :: c2 :: _ =>
     if jsWs c0 && apLetter c1 && mLetter c2 then some (c1, c2) else none
   | _ => none) <|>
  (match rest with
   | c1 :: c2 :: _ => if apLetter c1 && mLetter c2 then some (c1, c2) else none
   | _ => none)

/-- One attempt of `/(\d{1,2}):(\d{2})(?::(\d{2}))?(?:\s?([AP]M))?/i` at
the head of `s`: returns the captured hour digits, minute digits,
optional second digits and optional meridiem letters. -/
def timeMatchAt (s : List Char) :
    Option (List Char × List Char × Option (List Char) × Option (Char × Char)) := do
  let (hd, r1) ← digitsRange 1 2 s
  match r1 with
  | ':' :: r2 =>
    match digitsExact 2 r2 with
    | some (mm, r3) =>
      let secRest := timeSec r3
      some (hd, mm, secRest.1, timeMer secRest.2)
    | none => none
  | _ => none

/-- Unanchored search (`String.prototype.match`): first position whose
attempt succeeds. -/
def timeSearch : List Char → Option (List Char × List Char × Option (List Char) × Option (Char × Char))
  | [] => none
  | c :: r => timeMatchAt (c :: r) <|> timeSearch r

/-- The 12-hour conversion applied to the time regex's captures
(`PM` and hour ≠ 12 → +12, `AM` and hour = 12 → 0; absent seconds
default to 0). -/
def hmsFromCaptures (hd mm : List Char) (sec : Option (List Char))
    (mer : Option (Char × Char)) : Option Int × Option Int × Option Int :=
  let hours0 : Int := digitsToNat hd
  let minutes : Int := digitsToNat mm
  let seconds : Int := match sec with
    | some ss => digitsToNat ss
    | none => 0
  let hours1 : Int := match mer with
    | some (c1, _) =>
      let h1 := if (c1 == 'P' || c1 == 'p') && hours0 ≠ 12 then hours0 + 12 else hours0
      if (c1 == 'A' || c1 == 'a') && h1 = 12 then 0 else h1
    | none => hours0
  (some hours1, some minutes, some seconds)

/-- The `(hours, minutes, seconds)` triple `parseTimestamp` computes
from the time string: the regex captures fed through the 12-hour
conversion, with the fallback
`[hours, minutes] = timeStr.split(':').map(Number)` when the time
regex finds no match. -/
def parseTimeHMS (timeStr : List Char) : Option Int × Option Int × Option Int :=
  match timeSearch timeStr with
  | some (hd, mm, sec, mer) => hmsFromCaptures hd mm sec mer
  | none =>
    let ps := (splitEach (fun c => c == ':') timeStr).map jsToNumber
    ((ps.get? 0).join, (ps.get? 1).join, some 0)

/-- `parseTimestamp(dateStr, timeStr)`: split the date on `[\/\-\.]`,
order the three components by the detected date format (`null` falls
into the `DD/MM` branch), map 2-digit years to `2000+year`, parse the
time, and build the `Date`. -/
def parseTimestamp (fmt : Option DateFmt) (dateStr timeStr : List Char) : Option Int :=
  let parts := (splitEach sep3 dateStr).map jsToNumber
  let dmy : Option Int × Option Int × Option Int :=
    match fmt with
    | some DateFmt.isoYmd => ((parts.get? 2).join, (parts.get? 1).join, (parts.get? 0).join)
    | some DateFmt.mmddyyyy => ((parts.get? 1).join, (parts.get? 0).join, (parts.get? 2).join)
    | _ => ((parts.get? 0).join, (parts.get? 1).join, (parts.get? 2).join)
  let fullYear := dmy.2.2.map (fun y => if y < 100 then 2000 + y else y)
  let hms := parseTimeHMS timeStr
  jsMakeDate fullYear (dmy.2.1.map (fun m => m - 1)) dmy.1 hms.1 hms.2.1 hms.2.2

/-- The media-omission phrase and extension list of `isMediaMessage`,
in source order (each entry is tested as `/entry/i.test(content)`). -/
def mediaPatternsList : List String :=
  ["image omitted", "video omitted", "audio omitted", "sticker omitted",
   "GIF omitted", "document omitted", "contact card omitted", "<Media omitted>",
   "imagen omitida", "vídeo omitido", "video omitido", "audio omitido",
   "Bild weggelassen", "Video weggelassen", "<Medien ausgeschlossen>",
   "image omise", "vidéo omise",
   "imagem oculta", "vídeo oculto", "video oculto",
   "immagine omessa", "video omesso",
   "छवि छोड़ दी गई", "वीडियो छोड़ दिया गया",
   "afbeelding weggelaten", "video weggelaten",
   "<attached:",
   ".jpg", ".jpeg", ".png", ".gif", ".mp4", ".pdf", ".doc",
   "media omitted"]

def anyCI (ps : List String) (content : List Char) : Bool :=
  ps.any (fun p => containsCI p.data content)

/-- `isMediaMessage`. -/
def isMediaMessage (content : List Char) : Bool :=
  anyCI mediaPatternsList content

/-- `getMediaType` (ordered keyword/extension checks, first match wins). -/
def getMediaType (content : List Char) : Option (List Char) :=
  if anyCI ["image omitted", ".jpg", ".jpeg", ".png"] content then some "image".data
  else if anyCI ["video omitted", ".mp4", ".mov"] content then some "video".data
  else if anyCI ["audio omitted", ".mp3", "voice call"] content then some "audio".data
  else if anyCI ["sticker omitted"] content then some "sticker".data
  else if anyCI ["GIF omitted", ".gif"] content then some "gif".data
  else if anyCI ["document omitted", ".pdf", ".doc"] content then some "document".data
  else if anyCI ["contact card omitted"] content then some "contact".data
  else if anyCI ["location:"] content then some "location".data
  else none

/-- `isDeletedMessage`. -/
def isDeletedMessage (content : List Char) : Bool :=
  anyCI ["this message was deleted", "you deleted this message"] content

/-- `hasUrl`: `/https?:\/\/[^\s]+/i.test(content)` (at least one
non-whitespace character must follow the scheme). -/
def hasUrl (content : List Char) : Bool :=
  let lower := content.map jsToLower
  lower.tails.any (fun t =>
    ("https://".data.isPrefixOf t &&
      (match t.drop 8 with | c :: _ => !jsWs c | [] => false)) ||
    ("http://".data.isPrefixOf t &&
      (match t.drop 7 with | c :: _ => !jsWs c | [] => false)))

/-- `metadata.hasEmoji`: `/[\u{1F600}-\u{1F64F}]/u.test(content)`
(only the Emoticons block). -/
def hasEmojiFlag (content : List Char) : Bool :=
  content.any (fun c => 0x1F600 ≤ c.toNat && c.toNat ≤ 0x1F64F)

/-- `wordCount`: `content.split(/\s+/).filter(w => w.length > 0).length`. -/
def wordCount (content : List Char) : Nat :=
  ((splitRuns jsWs content).filter (fun w => 0 < w.length)).length

/-- The record being accumulated by the parse loop (`currentMessage`). -/
structure CurMsg where
  date : List Char
  time : List Char
  sender : List Char
  content : List Char
  rawLine : List Char
  isSystem : Bool
deriving DecidableEq, Repr

/-- The `metadata` block `processMessage` derives. -/
structure Metadata where
  length : Nat
  wordCount : Nat
  isMedia : Bool
  isDeleted : Bool
  hasUrl : Bool
  hasEmoji : Bool
  questionCount : Nat
  exclamationCount : Nat
  mediaType : Option (List Char)
  hour : Option Int
  dayOfWeek : Option Int
  dayOfMonth : Option Int
  month : Option Int
  year : Option Int
deriving DecidableEq, Repr

/-- A parsed record.  The source's `date` field (`new Date(timestamp)`)
denotes the same instant as `timestamp` and is not duplicated. -/
structure Record where
  timestamp : Option Int
  sender : List Char
  content : List Char
  isSystem : Bool
  metadata : Metadata
deriving DecidableEq, Repr

/-- `processMessage`. -/
def processMessage (fmt : Option DateFmt) (msg : CurMsg) : Record :=
  let timestamp := parseTimestamp fmt msg.date msg.time
  { timestamp := timestamp
    sender := msg.sender
    content := msg.content
    isSystem := msg.isSystem
    metadata :=
      { length := utf16Length msg.content
        wordCount := wordCount msg.content
        isMedia := isMediaMessage msg.content
        isDeleted := isDeletedMessage msg.content
        hasUrl := hasUrl msg.content
        hasEmoji := hasEmojiFlag msg.content
        questionCount := msg.content.count '?'
        exclamationCount := msg.content.count '!'
        mediaType := getMediaType msg.content
        hour := jsGetHours timestamp
        dayOfWeek := jsGetDay timestamp
        dayOfMonth := jsGetDate timestamp
        month := jsGetMonth timestamp
        year := jsGetFullYear timestamp } }

/-! ### Date-format detection -/

/-- The accumulating flags of `detectDateFormat`'s scan. -/
structure DetectSt where
  isMMDD : Bool
  isDDMM : Bool
  isISO : Bool
  sep : Char
deriving DecidableEq, Repr

/-- The timestamp (`match[1]`) of the first grammar matching a raw
(untrimmed) line: message patterns first, then system patterns. -/
def matchedTimestamp (rawLine : List Char) : Option (List Char) :=
  match tryParseMessage rawLine with
  | some (_, t, _, _) => some t
  | none =>
    match tryParseSystemMessage rawLine with
    | some (_, t, _) => some t
    | none => none

/-- The `(p1, p2)` numeric components of a matched timestamp: its date
part (the text before the first `[,\s]+` run) split on `[\/\-\.]`,
provided this yields exactly three parts (`p3` is extracted by the
source but never read). -/
def tsTriple (ts : List Char) : Option (Option Int × Option Int) :=
  let parts := splitEach sep3 ((splitRuns commaOrWs ts).headD [])
  if parts.length = 3 then
    some (jsToNumber (parts.headD []), jsToNumber ((parts.get? 1).getD []))
  else none

/-- One line of `detectDateFormat`'s scan: update the separator from
the matched timestamp, split off its date part, and set the
ISO / MM-DD / DD-MM flags from the numeric components. -/
def detectStep (st : DetectSt) (line : List Char) : DetectSt :=
  match matchedTimestamp line with
  | none => st
  | some ts =>
    let sep' := if ts.contains '/' then '/'
      else if ts.contains '-' then '-'
      else if ts.contains '.' then '.'
      else st.sep
    match tsTriple ts with
    | some (p1, p2) =>
      if jsGtC p1 31 && jsLtC p1 3000 then
        { st with isISO := true, sep := sep' }
      else
        { st with isMMDD := st.isMMDD || jsGtC p2 12,
                  isDDMM := st.isDDMM || jsGtC p1 12,
                  sep := sep' }
    | none => { st with sep := sep' }

/-- The scan loop with its early `break` as soon as any flag is set. -/
def detectLoop : DetectSt → List (List Char) → DetectSt
  | st, [] => st
  | st, l :: ls =>
    if (detectStep st l).isMMDD || (detectStep st l).isDDMM || (detectStep st l).isISO
    then detectStep st l
    else detectLoop (detectStep st l) ls

/-- `detectDateFormat`, returning the format together with the final
separator and whether the ISO flag was raised (the two instance-field
writes the source performs). -/
def detectDateFormat (lines : List (List Char)) : DateFmt × Char × Bool :=
  let st := detectLoop ⟨false, false, false, '/'⟩ lines
  let fmt :=
    if st.isISO then DateFmt.isoYmd
    else if st.isMMDD && !st.isDDMM then DateFmt.mmddyyyy
    else if st.isDDMM && !st.isMMDD then DateFmt.ddmmyyyy
    else DateFmt.ddmmyyyy
  (fmt, st.sep, st.isISO)

end WhatsAppParser

namespace WhatsAppParser

/-! ### The parse loop -/

/-- JS `Math.min` on two Date/number values (`NaN` absorbs). -/
def jsMin2 (a b : Option Int) : Option Int :=
  match a, b with
  | some x, some y => some (min x y)
  | _, _ => none

/-- JS `Math.max` on two Date/number values (`NaN` absorbs). -/
def jsMax2 (a b : Option Int) : Option Int :=
  match a, b with
  | some x, some y => some (max x y)
  | _, _ => none

/-- Subtraction on JS numbers (`NaN` absorbs). -/
def jsSub (a b : Option Int) : Option Int :=
  match a, b with
  | some x, some y => some (x - y)
  | _, _ => none

/-- The result of `getDateRange`: `{start: null, end: null, duration: 0}`
for an empty record list, else the min/max/duration/durationDays
object (`none` components model `NaN`/Invalid Date). -/
inductive DateRange where
  | empty
  | range (start stop duration durationDays : Option Int)
deriving DecidableEq, Repr

/-- `getDateRange`. -/
def getDateRange (messages : List Record) : DateRange :=
  match messages with
  | [] => DateRange.empty
  | m0 :: rest =>
    let mm := rest.foldl
      (fun (p : Option Int × Option Int) m => (jsMin2 p.1 m.timestamp, jsMax2 p.2 m.timestamp))
      (m0.timestamp, m0.timestamp)
    let duration := jsSub mm.2 mm.1
    DateRange.range mm.1 mm.2 duration (duration.map (fun d => d.fdiv 86400000))

/-- The object `parse` returns. -/
structure ParseResult where
  messages : List Record
  participants : List (List Char)
  totalMessages : Nat
  dateRange : DateRange
  rawContent : String
deriving DecidableEq

/-- The mutable instance state of a `WhatsAppParser` object
(`this.dateFormat`, `this.dateSeparator`, `this.isISOFormat`). -/
structure PState where
  dateFormat : Option DateFmt
  dateSeparator : Char
  isISOFormat : Bool
deriving DecidableEq, Repr

/-- The state set up by the constructor. -/
def initialState : PState := ⟨none, '/', false⟩

/-- The loop state of `parse`: accumulated messages, the participant
set (a JS `Set`, i.e. insertion-ordered and duplicate-free), and the
open `currentMessage`. -/
structure LoopSt where
  messages : List Record
  participants : List (List Char)
  cur : Option CurMsg
deriving DecidableEq

/-- Flush `currentMessage`: push the processed record and register the
sender as a participant unless it is the `SYSTEM` sentinel. -/
def flushCur (fmt : Option DateFmt) (st : LoopSt) : LoopSt :=
  match st.cur with
  | none => st
  | some c =>
    { messages := st.messages ++ [processMessage fmt c]
      participants :=
        if c.sender = "SYSTEM".data then st.participants
        else if st.participants.contains c.sender then st.participants
        else st.participants ++ [c.sender]
      cur := none }

/-- One iteration of the parse loop over a raw line: trim it, skip it
when empty, open a new user or system record on a header match
(flushing the previous one), and otherwise append the line to the open
record as a continuation. -/
def stepLine (fmt : Option DateFmt) (st : LoopSt) (rawLine : List Char) : LoopSt :=
  let line := jsTrim rawLine
  if line.isEmpty then st
  else
    match tryParseMessage line with
    | some (_, ts, sender, content) =>
      let st' := flushCur fmt st
      let dt := parseTimestampString ts
      { st' with cur := some ⟨dt.1, dt.2, jsTrim sender, jsTrim content, line, false⟩ }
    | none =>
      match tryParseSystemMessage line with
      | some (_, ts, content) =>
        let st' := flushCur fmt st
        let dt := parseTimestampString ts
        { st' with cur := some ⟨dt.1, dt.2, "SYSTEM".data, jsTrim content, line, true⟩ }
      | none =>
        match st.cur with
        | some c => { st with cur := some { c with content := c.content ++ '\n' :: line } }
        | none => st

/-- `parse(fileContent)`: detect the date format over the raw lines
(mutating the instance state), run the line loop, flush the last open
record, and assemble the `ParseResult`.  Returns the updated instance
state together with the result. -/
def parse (st : PState) (text : String) : PState × ParseResult :=
  let lines := splitEach (fun c => c == '\n') text.data
  let det := detectDateFormat lines
  let st1 : PState :=
    { dateFormat := some det.1
      dateSeparator := det.2.1
      isISOFormat := st.isISOFormat || det.2.2 }
  let final := flushCur st1.dateFormat (lines.foldl (stepLine st1.dateFormat) ⟨[], [], none⟩)
  (st1,
   { messages := final.messages
     participants := final.participants
     totalMessages := final.messages.length
     dateRange := getDateRange final.messages
     rawContent := text })

/-! ### `getChatStats` -/

/-- Property read on a plain JS object (insertion-ordered association
list; `none` = the key is absent, i.e. the read yields `undefined`). -/
def jsObjGet {κ α : Type} [BEq κ] (m : List (κ × α)) (k : κ) : Option α :=
  (m.find? (fun p => p.1 == k)).map (fun p => p.2)

/-- Property write on a plain JS object (in-place update of an existing
key, appending insertion for a new one). -/
def jsObjSet {κ α : Type} [BEq κ] (m : List (κ × α)) (k : κ) (v : α) : List (κ × α) :=
  if m.any (fun p => p.1 == k) then m.map (fun p => if p.1 == k then (p.1, v) else p)
  else m ++ [(k, v)]

/-- The statistics object of `getChatStats`.  The
`averageMessagesPerDay` display string (a `toFixed(2)` rendering) is
not modelled. -/
structure ChatStats where
  totalMessages : Nat
  participants : Nat
  messagesBySender : List (List Char × Option Int)
  dateRange : DateRange
deriving DecidableEq

/-- One message of `getChatStats`'s counting loop:
`messagesBySender[msg.sender]++` for a non-system message (on a sender
absent from the object this reads `undefined` and stores `NaN`,
modelled by `none`). -/
def chatStep (m : List (List Char × Option Int)) (msg : Record) :
    List (List Char × Option Int) :=
  if msg.isSystem then m
  else
    match jsObjGet m msg.sender with
    | some (some n) => jsObjSet m msg.sender (some (n + 1))
    | _ => jsObjSet m msg.sender none

/-- `getChatStats`: initialise every participant's counter to 0, then
run `chatStep` over every record. -/
def getChatStats (pd : ParseResult) : ChatStats :=
  let init := pd.participants.foldl (fun m p => jsObjSet m p (some 0)) []
  let mbs := pd.messages.foldl chatStep init
  { totalMessages := pd.messages.length
    participants := pd.participants.length
    messagesBySender := mbs
    dateRange := pd.dateRange }

end WhatsAppParser

section ParseChecks

/-- A fully-concrete two-message parse with per-field agreement. -/
example :
    (WhatsAppParser.parse WhatsAppParser.initialState
      "25/03/2024, 10:00 - Alice: hi\n25/03/2024, 10:05 - Bob: yo yo").2.participants =
    ["Alice".data, "Bob".data] := by decide

example :
    ((WhatsAppParser.parse WhatsAppParser.initialState
      "25/03/2024, 10:00 - Alice: hi\nstill Alice\n25/03/2024, 10:05 - Bob: yo").2.messages.map
        (fun r => (r.sender, r.content))) =
    [("Alice".data, "hi\nstill Alice".data), ("Bob".data, "yo".data)] := by decide

/-- Timestamp of `25/03/2024, 10:00` under DD/MM: 2024-03-25T10:00Z. -/
example :
    ((WhatsAppParser.parse WhatsAppParser.initialState
      "25/03/2024, 10:00 - Alice: hi").2.messages.map (fun r => r.timestamp)) =
    [some 1711360800000] := by decide

/-- Date-format detection picks MM/DD when the second component
exceeds 12 (and the timestamp resolves accordingly). -/
example :
    (WhatsAppParser.detectDateFormat ["03/25/2024, 10:00 - Alice: hi".data]).1 =
    WhatsAppParser.DateFmt.mmddyyyy := by decide

example :
    ((WhatsAppParser.parse WhatsAppParser.initialState
      "03/25/2024, 10:00 - Alice: hi").2.messages.map (fun r => r.timestamp)) =
    [some 1711360800000] := by decide

/-- ISO detection. -/
example :
    (WhatsAppParser.detectDateFormat ["2024-03-25 10:00 - Alice: hi".data]).1 =
    WhatsAppParser.DateFmt.isoYmd := by decide

/-- 12-hour conversion inside a full parse: `11:59 PM` → 23:59. -/
example :
    ((WhatsAppParser.parse WhatsAppParser.initialState
      "[25/03/2024, 11:59 PM] Alice: hi").2.messages.map
        (fun r => r.metadata.hour)) = [some 23] := by decide

end ParseChecks

namespace SimpleParser

/-! ### The simpler fixed-pattern parser (`src/unnamed/part_000`, second class)

A single message pattern and a single system pattern, slash-only dates:
`messagePattern = ^(?:\[)?(\d{1,2}\/\d{1,2}\/\d{2,4}),?\s+(\d{1,2}:\d{2}(?::\d{2})?(?:\s?[AP]M)?)(?:\])?\s*[-–]?\s*([^:]+?):\s*(.*)$`,
`systemMessagePattern` likewise with `(.*)$` in place of the sender and
content groups.  Group 1 is the date alone and group 2 the time alone
(unlike the richer parser, whose group 1 is the full timestamp). -/

def slashOnly (c : Char) : Bool := c == '/'

def msgBody (l : List Char) : Option (List Char × List Char × List Char × List Char) := do
  let (dp, r1) ← datePart 1 2 1 2 2 4 slashOnly l
  let (_, r2) ← commaWs r1
  (timeCands true r2).findSome? (fun p =>
    let tail := fun t => (tailOptDash dash2 t).map (fun q => (dp, p.1, q.1, q.2))
    match p.2 with
    | ']' :: r4 => tail r4 <|> tail p.2
    | _ => tail p.2)

/-- `this.messagePattern`: returns `(date, time, sender, content)`. -/
def messagePattern (l : List Char) : Option (List Char × List Char × List Char × List Char) :=
  match l with
  | '[' :: r => msgBody r
  | _ => msgBody l

def sysBody (l : List Char) : Option (List Char × List Char × List Char) := do
  let (dp, r1) ← datePart 1 2 1 2 2 4 slashOnly l
  let (_, r2) ← commaWs r1
  (timeCands true r2).findSome? (fun p =>
    let tail := fun t => (tailSysOptDash dash2 t).map (fun c => (dp, p.1, c))
    match p.2 with
    | ']' :: r4 => tail r4 <|> tail p.2
    | _ => tail p.2)

/-- `this.systemMessagePattern`: returns `(date, time, content)`; the
colon check on the content is applied by the callers, not here. -/
def systemMessagePattern (l : List Char) : Option (List Char × List Char × List Char) :=
  match l with
  | '[' :: r => sysBody r
  | _ => sysBody l

/-- The date (group 1) of the first of the two patterns matching, as
used by the simpler `detectDateFormat` (no colon check there). -/
def matchedDate (line : List Char) : Option (List Char) :=
  match messagePattern line with
  | some (d, _, _, _) => some d
  | none =>
    match systemMessagePattern line with
    | some (d, _, _) => some d
    | none => none

def detectStep (st : Bool × Bool) (line : List Char) : Bool × Bool :=
  match matchedDate line with
  | none => st
  | some dp =>
    let parts := splitEach slashOnly dp
    let p1 := jsToNumber (parts.headD [])
    let p2 := jsToNumber ((parts.get? 1).getD [])
    (st.1 || jsGtC p2 12, st.2 || jsGtC p1 12)

def detectLoop : (Bool × Bool) → List (List Char) → (Bool × Bool)
  | st, [] => st
  | st, l :: ls =>
    let st' := detectStep st l
    if st'.1 || st'.2 then st' else detectLoop st' ls

/-- The simpler `detectDateFormat` (`isMMDD`, `isDDMM`; no ISO mode). -/
def detectDateFormat (lines : List (List Char)) : WhatsAppParser.DateFmt :=
  let st := detectLoop (false, false) lines
  if st.1 && !st.2 then WhatsAppParser.DateFmt.mmddyyyy
  else if st.2 && !st.1 then WhatsAppParser.DateFmt.ddmmyyyy
  else WhatsAppParser.DateFmt.ddmmyyyy

/-- The simpler `parseTimestamp`: split the date on `'/'` only, no ISO
branch, otherwise identical (including the shared time regex). -/
def parseTimestamp (fmt : Option WhatsAppParser.DateFmt) (dateStr timeStr : List Char) :
    Option Int :=
  let parts := (splitEach slashOnly dateStr).map jsToNumber
  let dmy : Option Int × Option Int × Option Int :=
    match fmt with
    | some WhatsAppParser.DateFmt.mmddyyyy =>
      ((parts.get? 1).join, (parts.get? 0).join, (parts.get? 2).join)
    | _ => ((parts.get? 0).join, (parts.get? 1).join, (parts.get? 2).join)
  let fullYear := dmy.2.2.map (fun y => if y < 100 then 2000 + y else y)
  let hms := WhatsAppParser.parseTimeHMS timeStr
  jsMakeDate fullYear (dmy.2.1.map (fun m => m - 1)) dmy.1 hms.1 hms.2.1 hms.2.2

/-- The simpler parser's media phrase list (English phrases,
`<attached:` and the extension alternation only). -/
def mediaPatternsList : List String :=
  ["image omitted", "video omitted", "audio omitted", "sticker omitted",
   "GIF omitted", "document omitted", "contact card omitted", "<attached:",
   ".jpg", ".jpeg", ".png", ".gif", ".mp4", ".pdf", ".doc"]

def isMediaMessage (content : List Char) : Bool :=
  WhatsAppParser.anyCI mediaPatternsList content

/-- The simpler `processMessage` (same metadata block, its own media
list; `getMediaType`, `isDeletedMessage` and `hasUrl` are identical to
the richer parser's). -/
def processMessage (fmt : Option WhatsAppParser.DateFmt) (msg : WhatsAppParser.CurMsg) :
    WhatsAppParser.Record :=
  let timestamp := parseTimestamp fmt msg.date msg.time
  { timestamp := timestamp
    sender := msg.sender
    content := msg.content
    isSystem := msg.isSystem
    metadata :=
      { length := utf16Length msg.content
        wordCount := WhatsAppParser.wordCount msg.content
        isMedia := isMediaMessage msg.content
        isDeleted := WhatsAppParser.isDeletedMessage msg.content
        hasUrl := WhatsAppParser.hasUrl msg.content
        hasEmoji := WhatsAppParser.hasEmojiFlag msg.content
        questionCount := msg.content.count '?'
        exclamationCount := msg.content.count '!'
        mediaType := WhatsAppParser.getMediaType msg.content
        hour := jsGetHours timestamp
        dayOfWeek := jsGetDay timestamp
        dayOfMonth := jsGetDate timestamp
        month := jsGetMonth timestamp
        year := jsGetFullYear timestamp } }

def flushCur (fmt : Option WhatsAppParser.DateFmt) (st : WhatsAppParser.LoopSt) :
    WhatsAppParser.LoopSt :=
  match st.cur with
  | none => st
  | some c =>
    { messages := st.messages ++ [processMessage fmt c]
      participants :=
        if c.sender = "SYSTEM".data then st.participants
        else if st.participants.contains c.sender then st.participants
        else st.participants ++ [c.sender]
      cur := none }

/-- One iteration of the simpler parse loop: its single message
pattern, then its system pattern guarded by `!systemMatch[3].includes(':')`. -/
def stepLine (fmt : Option WhatsAppParser.DateFmt) (st : WhatsAppParser.LoopSt)
    (rawLine : List Char) : WhatsAppParser.LoopSt :=
  let line := jsTrim rawLine
  if line.isEmpty then st
  else
    match messagePattern line with
    | some (d, t, sender, content) =>
      let st' := flushCur fmt st
      { st' with cur := some ⟨d, t, jsTrim sender, jsTrim content, line, false⟩ }
    | none =>
      match systemMessagePattern line with
      | some (d, t, content) =>
        if content.contains ':' then
          match st.cur with
          | some c => { st with cur := some { c with content := c.content ++ '\n' :: line } }
          | none => st
        else
          let st' := flushCur fmt st
          { st' with cur := some ⟨d, t, "SYSTEM".data, jsTrim content, line, true⟩ }
      | none =>
        match st.cur with
        | some c => { st with cur := some { c with content := c.content ++ '\n' :: line } }
        | none => st

/-- The simpler `parse` (the instance state is just `this.dateFormat`,
assigned at the start of every call). -/
def parse (text : String) : WhatsAppParser.ParseResult :=
  let lines := splitEach (fun c => c == '\n') text.data
  let fmt := some (detectDateFormat lines)
  let final := flushCur fmt (lines.foldl (stepLine fmt) ⟨[], [], none⟩)
  { messages := final.messages
    participants := final.participants
    totalMessages := final.messages.length
    dateRange := WhatsAppParser.getDateRange final.messages
    rawContent := text }

end SimpleParser

section SimpleChecks

example : SimpleParser.messagePattern "25/03/2024, 10:00 - Alice: hi".data =
    some ("25/03/2024".data, "10:00".data, "Alice".data, "hi".data) := by decide

example : SimpleParser.messagePattern "[25/03/2024, 10:00:05 PM] Bob: yo".data =
    some ("25/03/2024".data, "10:00:05 PM".data, "Bob".data, "yo".data) := by decide

/-- slash-only dates: the simpler parser rejects ISO lines. -/
example : SimpleParser.messagePattern "2024-03-25 10:00 - Bob: yo".data = none := by decide

end SimpleChecks

namespace emojiUtils

/-! ### `emojiUtils` (`src/utils.js`)

`emojiRegex = /(\\u00a9|\\u00ae|[\\u2000-\\u3300]|\\ud83c[\\ud000-\\udfff]|\\ud83d[\\ud000-\\udfff]|\\ud83e[\\ud000-\\udfff])/g`
works on UTF-16 code units.  On well-formed strings every match is
either a single BMP character (U+00A9, U+00AE, or U+2000-U+3300) or a
full surrogate pair whose high surrogate is `\\ud83c`/`\\ud83d`/`\\ud83e`
(the low surrogate of any astral character lies in U+DC00-U+DFFF,
inside `[\\ud000-\\udfff]`; a match can never start at a low surrogate
because U+DC00-U+DFFF meets none of the alternatives).  Per code point: -/

/-- Whether the regex matches (the UTF-16 encoding of) this character. -/
def emojiCharMatch (c : Char) : Bool :=
  let n := c.toNat
  n == 0xa9 || n == 0xae || (0x2000 ≤ n && n ≤ 0x3300) ||
  (0x10000 ≤ n &&
    (let hi := 0xd800 + (n - 0x10000) / 0x400
     hi == 0xd83c || hi == 0xd83d || hi == 0xd83e))

/-- `extractEmojis`: all matches in order (`[]` models the `null`
fallback of `matches || []`). -/
def extractEmojis (text : List Char) : List Char :=
  text.filter emojiCharMatch

/-- `countEmojis`. -/
def countEmojis (text : List Char) : Nat :=
  (extractEmojis text).length

end emojiUtils

namespace WhatsAppAnalytics

open WhatsAppParser

/-! ### Analytics (`src/analytics.js`)

The engine stores `this.messages`, `this.participants` and
`this.userMessages = messages.filter(m => !m.isSystem)`; the two
functions the claims target are embedded over those inputs. -/

/-- Per-participant ghost statistics.  `averageGhostDuration` is a real
JS division, modelled in `ℚ`; `top5Ghosts` is added to the object only
when the participant has ghosts (hence the `Option`). -/
structure GhostStats where
  totalGhosts : Nat
  longestGhost : Int
  averageGhostDuration : ℚ
  ghostInstances : List (Int × Option Int × Option Int)
  top5Ghosts : Option (List (Int × Option Int × Option Int))
deriving DecidableEq, Repr

def initGhostStats : GhostStats := ⟨0, 0, 0, [], none⟩

/-- Stable descending insertion by duration — the result of the JS
stable `sort((a, b) => b.duration - a.duration)`. -/
def insertDurDesc (x : Int × Option Int × Option Int) :
    List (Int × Option Int × Option Int) → List (Int × Option Int × Option Int)
  | [] => [x]
  | y :: ys => if x.1 ≥ y.1 then x :: y :: ys else y :: insertDurDesc x ys

def sortDurDesc (l : List (Int × Option Int × Option Int)) :
    List (Int × Option Int × Option Int) :=
  l.foldr insertDurDesc []

/-- `ghostThreshold = 24 * 60 * 60 * 1000`. -/
def ghostThreshold : Int := 24 * 60 * 60 * 1000

/-- One consecutive pair `(previousMsg, currentMsg)` of the ghost scan:
a ghost iff the senders differ and the time difference strictly
exceeds the threshold (a `NaN` difference compares false); attributed
to the sender of the later message.  A ghoster absent from the map is
a no-op here (in JS it would be a `TypeError`; the engine is only ever
run with `participants` covering every sender). -/
def ghostStep (m : List (List Char × GhostStats)) (pc : Record × Record) :
    List (List Char × GhostStats) :=
  if pc.2.sender = pc.1.sender then m
  else
    match jsSub pc.2.timestamp pc.1.timestamp with
    | some d =>
      if d > ghostThreshold then
        match jsObjGet m pc.2.sender with
        | some g =>
          jsObjSet m pc.2.sender
            { g with
              totalGhosts := g.totalGhosts + 1
              ghostInstances := g.ghostInstances ++ [(d, pc.1.timestamp, pc.2.timestamp)]
              longestGhost := if d > g.longestGhost then d else g.longestGhost }
        | none => m
      else m
    | none => m

/-- The final pass of `getGhostPeriods`: average, sort, top 5 for every
participant with at least one ghost. -/
def ghostFinalize (g : GhostStats) : GhostStats :=
  let total : Int := (g.ghostInstances.map (fun i => i.1)).sum
  let sorted := sortDurDesc g.ghostInstances
  { g with
    averageGhostDuration := (total : ℚ) / (g.totalGhosts : ℚ)
    ghostInstances := sorted
    top5Ghosts := some (sorted.take 5) }

/-- `getGhostPeriods`. -/
def getGhostPeriods (participants : List (List Char)) (messages : List Record) :
    List (List Char × GhostStats) :=
  let userMessages := messages.filter (fun m => !m.isSystem)
  let init := participants.foldl (fun m p => jsObjSet m p initGhostStats) []
  let m1 := (userMessages.zip userMessages.tail).foldl ghostStep init
  participants.foldl
    (fun m p =>
      match jsObjGet m p with
      | some g => if 0 < g.totalGhosts then jsObjSet m p (ghostFinalize g) else m
      | none => m)
    m1

end WhatsAppAnalytics

/-! ## Claims -/

namespace WhatsAppParser

/-- The `(p1, p2)` numeric components `detectDateFormat` extracts from
a line (when the line matches some grammar and its date part splits
into exactly three components). -/
def lineTriple (line : List Char) : Option (Option Int × Option Int) :=
  (matchedTimestamp line).bind tsTriple

/-- Whether a line raises the ISO flag (`p1 > 31 && p1 < 3000`). -/
def isoFire (line : List Char) : Bool :=
  match lineTriple line with
  | some t => jsGtC t.1 31 && jsLtC t.1 3000
  | none => false

/-- Whether a line raises the `isDDMM` flag (`p1 > 12`, non-ISO). -/
def p1Fire (line : List Char) : Bool :=
  match lineTriple line with
  | some t => jsGtC t.1 12
  | none => false

/-- Whether a line raises the `isMMDD` flag (`p2 > 12`, non-ISO). -/
def p2Fire (line : List Char) : Bool :=
  match lineTriple line with
  | some t => jsGtC t.2 12
  | none => false

theorem detectStep_flags (st : DetectSt) (l : List Char) (h : isoFire l = false) :
    (detectStep st l).isISO = st.isISO ∧
    (detectStep st l).isMMDD = (st.isMMDD || p2Fire l) ∧
    (detectStep st l).isDDMM = (st.isDDMM || p1Fire l) := by
  unfold isoFire p1Fire p2Fire lineTriple at *
  unfold detectStep
  cases hm : matchedTimestamp l with
  | none => simp [hm]
  | some ts =>
    simp only [hm] at h ⊢
    cases ht : tsTriple ts with
    | none => simp [ht]
    | some t =>
      have h' : (jsGtC t.1 31 && jsLtC t.1 3000) = false := by
        rw [Option.some_bind, ht] at h
        exact h
      simp only [ht]
      rw [if_neg]
      · simp [ht]
      · intro hc
        rw [h'] at hc
        exact Bool.false_ne_true hc

theorem detectLoop_mm (lines : List (List Char))
    (h : ∀ l ∈ lines, isoFire l = false ∧ p1Fire l = false) :
    ∀ st : DetectSt, st.isISO = false → st.isDDMM = false →
    (detectLoop st lines).isISO = false ∧
    (detectLoop st lines).isDDMM = false ∧
    (detectLoop st lines).isMMDD = (st.isMMDD || lines.any p2Fire) := by
  induction lines with
  | nil => intro st h1 h2; simp [detectLoop, h1, h2]
  | cons l ls ih =>
    intro st h1 h2
    have hl := h l (List.mem_cons_self l ls)
    have hs := detectStep_flags st l hl.1
    have hmm : (detectStep st l).isMMDD = (st.isMMDD || p2Fire l) := hs.2.1
    have hdd : (detectStep st l).isDDMM = false := by
      rw [hs.2.2, h2, hl.2]; rfl
    have hiso : (detectStep st l).isISO = false := by rw [hs.1, h1]
    by_cases hb : ((detectStep st l).isMMDD || (detectStep st l).isDDMM ||
        (detectStep st l).isISO) = true
    · rw [detectLoop, if_pos hb]
      have hb2 : (st.isMMDD || p2Fire l) = true := by
        rw [hmm, hdd, hiso] at hb
        simpa using hb
      refine ⟨hiso, hdd, ?_⟩
      rw [hmm, List.any_cons]
      rcases Bool.or_eq_true_iff.mp hb2 with h' | h' <;> simp [h']
    · rw [detectLoop, if_neg hb]
      have := ih (fun x hx => h x (List.mem_cons_of_mem _ hx)) (detectStep st l) hiso hdd
      refine ⟨this.1, this.2.1, ?_⟩
      rw [this.2.2, hmm, List.any_cons, Bool.or_assoc]

theorem detectLoop_dd (lines : List (List Char))
    (h : ∀ l ∈ lines, isoFire l = false ∧ p2Fire l = false) :
    ∀ st : DetectSt, st.isISO = false → st.isMMDD = false →
    (detectLoop st lines).isISO = false ∧
    (detectLoop st lines).isMMDD = false ∧
    (detectLoop st lines).isDDMM = (st.isDDMM || lines.any p1Fire) := by
  induction lines with
  | nil => intro st h1 h2; simp [detectLoop, h1, h2]
  | cons l ls ih =>
    intro st h1 h2
    have hl := h l (List.mem_cons_self l ls)
    have hs := detectStep_flags st l hl.1
    have hdd : (detectStep st l).isDDMM = (st.isDDMM || p1Fire l) := hs.2.2
    have hmm : (detectStep st l).isMMDD = false := by
      rw [hs.2.1, h2, hl.2]; rfl
    have hiso : (detectStep st l).isISO = false := by rw [hs.1, h1]
    by_cases hb : ((detectStep st l).isMMDD || (detectStep st l).isDDMM ||
        (detectStep st l).isISO) = true
    · rw [detectLoop, if_pos hb]
      have hb2 : (st.isDDMM || p1Fire l) = true := by
        rw [hmm, hdd, hiso] at hb
        simpa using hb
      refine ⟨hiso, hmm, ?_⟩
      rw [hdd, List.any_cons]
      rcases Bool.or_eq_true_iff.mp hb2 with h' | h' <;> simp [h']
    · rw [detectLoop, if_neg hb]
      have := ih (fun x hx => h x (List.mem_cons_of_mem _ hx)) (detectStep st l) hiso hmm
      refine ⟨this.1, this.2.1, ?_⟩
      rw [this.2.2, hdd, List.any_cons, Bool.or_assoc]

end WhatsAppParser

/-- C1 (counterexample).  The claim as stated is false on the code: for
the file `01/25/24, 10:00 - Alice: hi` the matched timestamp's
components are `(1, 25, 24)` — no component in the 4-digit-year range,
second component `25 > 12`, first component never exceeding 12 — yet
`detectDateFormat` classifies the file as `MM/DD/YYYY`, not
`DD/MM/YYYY` (the source comment `12/30 -> p2=30 -> MM/DD` confirms the
code's direction is intentional: a second component above 12 must be a
day, so the order *is* month-first). -/
theorem c1_counterexample :
    WhatsAppParser.lineTriple "01/25/24, 10:00 - Alice: hi".data =
      some (some 1, some 25) ∧
    (WhatsAppParser.detectDateFormat ["01/25/24, 10:00 - Alice: hi".data]).1 =
      WhatsAppParser.DateFmt.mmddyyyy ∧
    WhatsAppParser.DateFmt.mmddyyyy ≠ WhatsAppParser.DateFmt.ddmmyyyy := by
  exact ⟨by decide, by decide, by decide⟩

/-- C1 (amended).  For every file none of whose matched first date
components lies in the 4-digit-year range (so the ISO flag never
fires): if the second component of some matched timestamp exceeds 12
while the first never does, `detectDateFormat` classifies the file as
`MM/DD/YYYY`; symmetrically, if the first component of some matched
timestamp exceeds 12 while the second never does, it classifies as
`DD/MM/YYYY`; and when neither condition fires across the whole file
the result defaults to `DD/MM/YYYY`. -/
theorem c1_amended (lines : List (List Char))
    (hIso : ∀ l ∈ lines, WhatsAppParser.isoFire l = false) :
    ((lines.any WhatsAppParser.p2Fire = true →
      (∀ l ∈ lines, WhatsAppParser.p1Fire l = false) →
      (WhatsAppParser.detectDateFormat lines).1 = WhatsAppParser.DateFmt.mmddyyyy) ∧
     (lines.any WhatsAppParser.p1Fire = true →
      (∀ l ∈ lines, WhatsAppParser.p2Fire l = false) →
      (WhatsAppParser.detectDateFormat lines).1 = WhatsAppParser.DateFmt.ddmmyyyy) ∧
     ((∀ l ∈ lines, WhatsAppParser.p1Fire l = false ∧ WhatsAppParser.p2Fire l = false) →
      (WhatsAppParser.detectDateFormat lines).1 = WhatsAppParser.DateFmt.ddmmyyyy)) := by
  refine ⟨?_, ?_, ?_⟩
  · intro hsome hno
    have := WhatsAppParser.detectLoop_mm lines
      (fun l hl => ⟨hIso l hl, hno l hl⟩) ⟨false, false, false, '/'⟩ rfl rfl
    unfold WhatsAppParser.detectDateFormat
    rw [show (⟨false, false, false, '/'⟩ : WhatsAppParser.DetectSt).isMMDD = false from rfl,
      Bool.false_or] at this
    simp [this.1, this.2.1, this.2.2, hsome]
  · intro hsome hno
    have := WhatsAppParser.detectLoop_dd lines
      (fun l hl => ⟨hIso l hl, hno l hl⟩) ⟨false, false, false, '/'⟩ rfl rfl
    unfold WhatsAppParser.detectDateFormat
    rw [show (⟨false, false, false, '/'⟩ : WhatsAppParser.DetectSt).isDDMM = false from rfl,
      Bool.false_or] at this
    simp [this.1, this.2.1, this.2.2, hsome]
  · intro hno
    have := WhatsAppParser.detectLoop_mm lines
      (fun l hl => ⟨hIso l hl, (hno l hl).1⟩) ⟨false, false, false, '/'⟩ rfl rfl
    unfold WhatsAppParser.detectDateFormat
    have hany : lines.any WhatsAppParser.p2Fire = false := by
      rw [List.any_eq_false]
      intro l hl
      simp [(hno l hl).2]
    rw [show (⟨false, false, false, '/'⟩ : WhatsAppParser.DetectSt).isMMDD = false from rfl,
      Bool.false_or, hany] at this
    simp [this.1, this.2.1, this.2.2]

/-- C1 (witness): the amended theorem applied to the concrete file
`01/25/24, 10:00 - Alice: hi` (second component 25, first component 1). -/
theorem c1_amended_witness :
    (WhatsAppParser.detectDateFormat ["01/25/24, 10:00 - Alice: hi".data]).1 =
      WhatsAppParser.DateFmt.mmddyyyy :=
  (c1_amended ["01/25/24, 10:00 - Alice: hi".data]
    (by decide)).1 (by decide) (by decide)

/-- C10: the two emoji detectors diverge.  Every character the
`metadata.hasEmoji` flag accepts (U+1F600–U+1F64F) is matched by
`emojiUtils.emojiRegex` (its UTF-16 high surrogate is `\ud83d`), but
not conversely: parsing a message whose content contains `❤` (U+2764)
produces a record with `hasEmoji = false` although `extractEmojis`
returns a non-empty match list for that content. -/
theorem c10_emoji_divergence :
    (∀ c : Char, 0x1F600 ≤ c.toNat → c.toNat ≤ 0x1F64F →
      emojiUtils.emojiCharMatch c = true) ∧
    ((WhatsAppParser.parse WhatsAppParser.initialState
        "25/03/2024, 10:00 - Alice: I ❤ you").2.messages.map
          (fun m => (m.metadata.hasEmoji, emojiUtils.extractEmojis m.content)) =
      [(false, ['❤'])]) ∧
    (['❤'] : List Char) ≠ [] := by
  refine ⟨?_, by decide, by decide⟩
  intro c h1 h2
  unfold emojiUtils.emojiCharMatch
  have hge : (0x10000 ≤ c.toNat) = True := by simp; omega
  have hhi : 0xd800 + (c.toNat - 0x10000) / 0x400 = 0xd83d := by omega
  simp only [hhi, hge]
  simp

/-- C10 (witness): the subset direction applied at `😀` (U+1F600). -/
theorem c10_emoji_divergence_witness :
    emojiUtils.emojiCharMatch '😀' = true :=
  c10_emoji_divergence.1 '😀' (by decide) (by decide)

/-- C2: `parse` is a pure function of the input text.  The result
component is identical for any two instance states, so parsing the
same text twice yields structurally identical `ParseResult`s (records,
participants, `dateRange`, all fields), and the result of parsing a
text is unchanged by any sequence of parses of other texts performed
earlier on the same instance: the date order and separator are
recomputed from scratch inside every call, and the sticky
`isISOFormat` flag is never read. -/
theorem c2_parse_pure :
    (∀ (s1 s2 : WhatsAppParser.PState) (text : String),
      (WhatsAppParser.parse s1 text).2 = (WhatsAppParser.parse s2 text).2) ∧
    (∀ (s : WhatsAppParser.PState) (priorTexts : List String) (text : String),
      (WhatsAppParser.parse
        (priorTexts.foldl (fun st t => (WhatsAppParser.parse st t).1) s) text).2 =
      (WhatsAppParser.parse s text).2) := by
  have key : ∀ (s1 s2 : WhatsAppParser.PState) (text : String),
      (WhatsAppParser.parse s1 text).2 = (WhatsAppParser.parse s2 text).2 :=
    fun s1 s2 text => rfl
  exact ⟨key, fun s priorTexts text => key _ s text⟩

/-! ### JS-object lemmas shared by the analytics/stats proofs -/

namespace WhatsAppParser

theorem jsObjGet_jsObjSet {κ α : Type} [BEq κ] [LawfulBEq κ]
    (m : List (κ × α)) (k k' : κ) (v : α) :
    jsObjGet (jsObjSet m k v) k' = if k' == k then some v else jsObjGet m k' := by
  unfold jsObjGet jsObjSet
  by_cases hany : m.any (fun p => p.1 == k) = true
  · rw [if_pos hany]
    have hmap : ∀ l : List (κ × α),
        (l.map (fun p => if p.1 == k then (p.1, v) else p)).find? (fun p => p.1 == k') =
        (l.find? (fun p => p.1 == k')).map (fun p => if p.1 == k then (p.1, v) else p) := by
      intro l
      induction l with
      | nil => rfl
      | cons a as ih =>
        simp only [List.map_cons, List.find?]
        have hkey : ((if a.1 == k then (a.1, v) else a) : κ × α).1 = a.1 := by
          by_cases h : (a.1 == k) = true <;> simp [h]
        rw [hkey]
        cases h : (a.1 == k') with
        | true => simp
        | false => simp [ih]
    rw [hmap]
    by_cases hk : (k' == k) = true
    · have hk2 : k' = k := eq_of_beq hk
      subst hk2
      rw [if_pos hk]
      obtain ⟨x, hxm, hxk⟩ := List.any_eq_true.mp hany
      have hsome : (m.find? fun p => p.1 == k').isSome := by
        rw [List.find?_isSome]
        exact ⟨x, hxm, hxk⟩
      obtain ⟨p0, hp0⟩ := Option.isSome_iff_exists.mp hsome
      have hp0k := List.find?_some hp0
      rw [hp0]
      simp [hp0k]
    · rw [if_neg hk]
      cases hf : m.find? (fun p => p.1 == k') with
      | none => simp
      | some p0 =>
        have hp0k := List.find?_some hf
        have hne : (p0.1 == k) = false := by
          rw [Bool.eq_false_iff]
          intro hcon
          exact hk (by rw [eq_of_beq hp0k] at hcon; exact hcon)
        simp [hne]
  · rw [if_neg hany]
    rw [List.find?_append]
    by_cases hk : (k' == k) = true
    · have hk2 : k' = k := eq_of_beq hk
      subst hk2
      have hnone : m.find? (fun p => p.1 == k') = none := by
        rw [List.find?_eq_none]
        intro x hx hpx
        exact hany (List.any_eq_true.mpr ⟨x, hx, hpx⟩)
      rw [hnone, if_pos hk]
      simp
    · rw [if_neg hk]
      have hkk : (k == k') = false := by
        rw [Bool.eq_false_iff]
        intro hcon
        have h2 := eq_of_beq hcon
        exact hk (by rw [h2]; exact beq_self_eq_true k')
      cases hf : m.find? (fun p => p.1 == k') with
      | none => simp [List.find?, hkk]
      | some p0 => simp

theorem jsObjGet_init {κ α : Type} [BEq κ] [LawfulBEq κ]
    (ps : List κ) (v0 : α) (p : κ) :
    ∀ m : List (κ × α),
      jsObjGet (ps.foldl (fun m q => jsObjSet m q v0) m) p =
        if p ∈ ps then some v0 else jsObjGet m p := by
  induction ps with
  | nil => intro m; simp
  | cons q qs ih =>
    intro m
    rw [List.foldl_cons, ih (jsObjSet m q v0)]
    by_cases hmem : p ∈ qs
    · simp [hmem]
    · rw [if_neg hmem, jsObjGet_jsObjSet]
      by_cases hpq : p == q
      · rw [if_pos hpq, if_pos (by simp [eq_of_beq hpq])]
      · rw [if_neg hpq, if_neg (by
          intro hcon
          rcases List.mem_cons.mp hcon with h | h
          · exact hpq (by simp [h])
          · exact hmem h)]

end WhatsAppParser

namespace WhatsAppAnalytics

open WhatsAppParser

/-- The ghost test of one consecutive user-message pair, for a fixed
participant `p`: the later sender is `p`, the senders differ, and the
timestamp difference strictly exceeds the 24-hour threshold (a `NaN`
difference fails the comparison). -/
def isGhostPairFor (p : List Char) (pc : Record × Record) : Bool :=
  decide (pc.2.sender = p) &&
  decide (pc.2.sender ≠ pc.1.sender) &&
  jsGtC (jsSub pc.2.timestamp pc.1.timestamp) ghostThreshold

theorem ghost_fold (pairs : List (Record × Record)) (p : List Char) :
    ∀ (m : List (List Char × GhostStats)) (g : GhostStats), jsObjGet m p = some g →
    ∃ g', jsObjGet (pairs.foldl ghostStep m) p = some g' ∧
      g'.totalGhosts = g.totalGhosts + pairs.countP (isGhostPairFor p) := by
  induction pairs with
  | nil =>
    intro m g h
    exact ⟨g, h, by simp⟩
  | cons pc rest ih =>
    intro m g h
    rw [List.foldl_cons, List.countP_cons]
    by_cases h1 : pc.2.sender = pc.1.sender
    · have hstep : ghostStep m pc = m := by
        simp only [ghostStep, if_pos h1]
      have hpred : isGhostPairFor p pc = false := by
        simp [isGhostPairFor, h1]
      rw [hstep, hpred]
      simpa using ih m g h
    · cases hd : jsSub pc.2.timestamp pc.1.timestamp with
      | none =>
        have hstep : ghostStep m pc = m := by
          simp only [ghostStep, if_neg h1, hd]
        have hpred : isGhostPairFor p pc = false := by
          simp [isGhostPairFor, hd, jsGtC]
        rw [hstep, hpred]
        simpa using ih m g h
      | some d =>
        by_cases h2 : d > ghostThreshold
        · by_cases h3 : pc.2.sender = p
          · have hstep : ghostStep m pc = jsObjSet m p
                { g with
                  totalGhosts := g.totalGhosts + 1
                  ghostInstances := g.ghostInstances ++ [(d, pc.1.timestamp, pc.2.timestamp)]
                  longestGhost := if d > g.longestGhost then d else g.longestGhost } := by
              simp only [ghostStep, if_neg h1, hd, if_pos h2, h3, h]
              rw [if_neg (show ¬p = pc.1.sender by
                intro hc
                exact h1 (by rw [h3]; exact hc))]
            have hne : ¬p = pc.1.sender := by
              intro hc
              exact h1 (by rw [h3]; exact hc)
            have hpred : isGhostPairFor p pc = true := by
              simp [isGhostPairFor, hd, jsGtC, h3, h2, hne]
            rw [hstep]
            obtain ⟨g', hg', htot⟩ := ih (jsObjSet m p
              { g with
                totalGhosts := g.totalGhosts + 1
                ghostInstances := g.ghostInstances ++ [(d, pc.1.timestamp, pc.2.timestamp)]
                longestGhost := if d > g.longestGhost then d else g.longestGhost })
              { g with
                totalGhosts := g.totalGhosts + 1
                ghostInstances := g.ghostInstances ++ [(d, pc.1.timestamp, pc.2.timestamp)]
                longestGhost := if d > g.longestGhost then d else g.longestGhost }
              (by rw [jsObjGet_jsObjSet]; simp)
            refine ⟨g', hg', ?_⟩
            rw [htot]
            simp [hpred]
            omega
          · have hpred : isGhostPairFor p pc = false := by
              simp [isGhostPairFor, h3]
            rw [hpred]
            cases hq : jsObjGet m pc.2.sender with
            | none =>
              have hstep : ghostStep m pc = m := by
                simp only [ghostStep, if_neg h1, hd, if_pos h2, hq]
              rw [hstep]
              simpa using ih m g h
            | some gq =>
              have hstep : ghostStep m pc = jsObjSet m pc.2.sender
                  { gq with
                    totalGhosts := gq.totalGhosts + 1
                    ghostInstances := gq.ghostInstances ++ [(d, pc.1.timestamp, pc.2.timestamp)]
                    longestGhost := if d > gq.longestGhost then d else gq.longestGhost } := by
                simp only [ghostStep, if_neg h1, hd, if_pos h2, hq]
              have hget : jsObjGet (jsObjSet m pc.2.sender
                  { gq with
                    totalGhosts := gq.totalGhosts + 1
                    ghostInstances := gq.ghostInstances ++ [(d, pc.1.timestamp, pc.2.timestamp)]
                    longestGhost := if d > gq.longestGhost then d else gq.longestGhost }) p =
                  some g := by
                rw [jsObjGet_jsObjSet, if_neg, h]
                intro hcon
                exact h3 (eq_of_beq hcon).symm
              rw [hstep]
              simpa using ih _ g hget
        · have hstep : ghostStep m pc = m := by
            simp only [ghostStep, if_neg h1, hd, if_neg h2]
          have hpred : isGhostPairFor p pc = false := by
            simp only [isGhostPairFor, hd, jsGtC]
            simp
            omega
          rw [hstep, hpred]
          simpa using ih m g h

theorem ghost_finalize_get (ps : List (List Char)) (p : List Char) :
    ∀ m : List (List Char × GhostStats),
      ((jsObjGet (ps.foldl
        (fun m q =>
          match jsObjGet m q with
          | some g => if 0 < g.totalGhosts then jsObjSet m q (ghostFinalize g) else m
          | none => m) m) p).map GhostStats.totalGhosts) =
      (jsObjGet m p).map GhostStats.totalGhosts := by
  induction ps with
  | nil => intro m; rfl
  | cons q qs ih =>
    intro m
    rw [List.foldl_cons, ih]
    cases hq : jsObjGet m q with
    | none => rfl
    | some g =>
      dsimp only
      by_cases h0 : 0 < g.totalGhosts
      · rw [if_pos h0, jsObjGet_jsObjSet]
        by_cases hpq : (p == q) = true
        · rw [if_pos hpq]
          rw [eq_of_beq hpq, hq]
          rfl
        · rw [if_neg hpq]
      · rw [if_neg h0]

end WhatsAppAnalytics

/-- C6: ghost-period counting.  For every participant list covering
the senders and every record list, the total ghost count attributed to
a participant `p` equals the number of consecutive user-message pairs
whose later message is by `p`, whose senders differ, and whose
timestamp gap strictly exceeds 24 hours — so a gap of exactly
24h0m0s is never a ghost, any strictly larger gap between different
senders is, the ghost is attributed to the sender of the later message,
and consecutive same-sender pairs never produce one. -/
theorem c6_ghost_periods (parts : List (List Char)) (msgs : List WhatsAppParser.Record)
    (p : List Char) (hp : p ∈ parts)
    (_hsenders : ∀ m ∈ msgs, m.isSystem = false → m.sender ∈ parts) :
    ((WhatsAppParser.jsObjGet (WhatsAppAnalytics.getGhostPeriods parts msgs) p).map
      WhatsAppAnalytics.GhostStats.totalGhosts) =
    some ((let u := msgs.filter (fun m => !m.isSystem);
      (u.zip u.tail).countP (WhatsAppAnalytics.isGhostPairFor p))) := by
  unfold WhatsAppAnalytics.getGhostPeriods
  rw [WhatsAppAnalytics.ghost_finalize_get]
  have hinit : WhatsAppParser.jsObjGet
      (parts.foldl (fun m q => WhatsAppParser.jsObjSet m q WhatsAppAnalytics.initGhostStats) [])
      p = some WhatsAppAnalytics.initGhostStats := by
    rw [WhatsAppParser.jsObjGet_init]
    simp [hp]
  obtain ⟨g', hg', htot⟩ := WhatsAppAnalytics.ghost_fold
    (((msgs.filter (fun m => !m.isSystem)).zip (msgs.filter (fun m => !m.isSystem)).tail)) p _ _ hinit
  rw [hg']
  simp [htot, WhatsAppAnalytics.initGhostStats]

/-- A concrete user-message record (empty content, all-zero metadata)
used by the analytics witnesses. -/
def mkTestMsg (sender : String) (ts : Int) : WhatsAppParser.Record :=
  { timestamp := some ts
    sender := sender.data
    content := []
    isSystem := false
    metadata := ⟨0, 0, false, false, false, false, 0, 0, none, none, none, none, none, none⟩ }

/-- C6 (witness): with messages A at t=0, B exactly 24h later, then A
24h0m1s after that, B's gap is not a ghost and A's is (attributed to
the later sender A). -/
theorem c6_ghost_periods_witness :
    ((WhatsAppParser.jsObjGet (WhatsAppAnalytics.getGhostPeriods
        ["A".data, "B".data]
        [mkTestMsg "A" 0, mkTestMsg "B" 86400000, mkTestMsg "A" (2 * 86400000 + 1000)])
      "A".data).map WhatsAppAnalytics.GhostStats.totalGhosts) = some 1 ∧
    ((WhatsAppParser.jsObjGet (WhatsAppAnalytics.getGhostPeriods
        ["A".data, "B".data]
        [mkTestMsg "A" 0, mkTestMsg "B" 86400000, mkTestMsg "A" (2 * 86400000 + 1000)])
      "B".data).map WhatsAppAnalytics.GhostStats.totalGhosts) = some 0 :=
  ⟨(c6_ghost_periods _ _ _ (by decide) (by decide)).trans (by decide),
   (c6_ghost_periods _ _ _ (by decide) (by decide)).trans (by decide)⟩

namespace WhatsAppAnalytics

open WhatsAppParser

/-! ### C7 support: the specification-side run grouping -/

theorem jsObjSet_map_fst {κ α : Type} [BEq κ] [LawfulBEq κ] (m : List (κ × α)) (k : κ) (v : α) :
    (jsObjSet m k v).map Prod.fst =
      if k ∈ m.map Prod.fst then m.map Prod.fst else m.map Prod.fst ++ [k] := by
  unfold jsObjSet
  have hiff : (m.any (fun p => p.1 == k)) = true ↔ k ∈ m.map Prod.fst := by
    rw [List.any_eq_true]
    constructor
    · rintro ⟨p, hp, hbeq⟩
      exact List.mem_map.mpr ⟨p, hp, eq_of_beq hbeq⟩
    · intro hk
      obtain ⟨p, hp, hfst⟩ := List.mem_map.mp hk
      exact ⟨p, hp, by simp [hfst]⟩
  by_cases hany : m.any (fun p => p.1 == k) = true
  · rw [if_pos hany, if_pos (hiff.mp hany)]
    rw [List.map_map]
    apply List.map_congr_left
    intro p _
    by_cases h : (p.1 == k) = true <;> simp [h]
  · rw [if_neg hany, if_neg (fun hmem => hany (hiff.mpr hmem))]
    simp

end WhatsAppAnalytics

namespace WhatsAppAnalytics

end WhatsAppAnalytics

namespace WhatsAppParser

theorem findSome?_mem {α β : Type} (f : α → Option β) (l : List α) (b : β)
    (h : l.findSome? f = some b) : ∃ a ∈ l, f a = some b := by
  induction l with
  | nil => simp [List.findSome?] at h
  | cons x xs ih =>
    cases hf : f x with
    | some v =>
      have hx : List.findSome? f (x :: xs) = some v := by
        rw [List.findSome?_cons, hf]
      rw [hx] at h
      cases h
      exact ⟨x, List.mem_cons_self _ _, hf⟩
    | none =>
      have hx : List.findSome? f (x :: xs) = List.findSome? f xs := by
        rw [List.findSome?_cons, hf]
      rw [hx] at h
      obtain ⟨a, ha, hfa⟩ := ih h
      exact ⟨a, List.mem_cons_of_mem _ ha, hfa⟩

theorem breakAtColon_no_colon (t : List Char) :
    ∀ before after, breakAtColon t = some (before, after) → ':' ∉ before := by
  induction t with
  | nil => intro b a h; simp [breakAtColon] at h
  | cons c r ih =>
    intro b a h
    unfold breakAtColon at h
    by_cases hc : c = ':'
    · rw [if_pos hc] at h
      cases h
      simp
    · rw [if_neg hc] at h
      cases hb : breakAtColon r with
      | none => rw [hb] at h; simp at h
      | some p =>
        rw [hb] at h
        simp only [Option.map_some'] at h
        cases h
        intro hmem
        rcases List.mem_cons.mp hmem with h | h
        · exact hc h.symm
        · exact ih p.1 p.2 (by rw [hb]) h

theorem tailSenderContent_sender (t sender content : List Char)
    (h : tailSenderContent t = some (sender, content)) : ':' ∉ sender := by
  unfold tailSenderContent at h
  cases hb : breakAtColon t with
  | none => rw [hb] at h; cases h
  | some p =>
    obtain ⟨before, after⟩ := p
    rw [hb] at h
    dsimp only at h
    have hmem : ':' ∉ before := breakAtColon_no_colon t before after hb
    have key : ∀ k, sender = before.drop k → ':' ∉ sender := by
      intro k hk hx
      exact hmem (List.drop_subset k before (hk ▸ hx))
    by_cases h1 : (t.takeWhile jsWs).length < before.length
    · rw [if_pos h1] at h
      dsimp only at h
      cases ht : tailContent after with
      | none => rw [ht] at h; cases h
      | some c0 =>
        rw [ht] at h
        dsimp only at h
        cases h
        exact key _ rfl
    · rw [if_neg h1] at h
      by_cases h2 : 0 < before.length
      · rw [if_pos h2] at h
        dsimp only at h
        cases ht : tailContent after with
        | none => rw [ht] at h; cases h
        | some c0 =>
          rw [ht] at h
          dsimp only at h
          cases h
          exact key _ rfl
      · rw [if_neg h2] at h
        dsimp only at h
        cases h

theorem tailReqDash_sender (dash : Char → Bool) (t sender content : List Char)
    (h : tailReqDash dash t = some (sender, content)) : ':' ∉ sender := by
  unfold tailReqDash at h
  cases hd : t.dropWhile jsWs with
  | nil => rw [hd] at h; cases h
  | cons c r =>
    rw [hd] at h
    dsimp only at h
    by_cases hc : dash c = true
    · rw [if_pos hc] at h
      exact tailSenderContent_sender r sender content h
    · rw [if_neg hc] at h
      cases h

theorem tailOptDash_sender (dash : Char → Bool) (t sender content : List Char)
    (h : tailOptDash dash t = some (sender, content)) : ':' ∉ sender := by
  unfold tailOptDash at h
  cases hd : t.dropWhile jsWs with
  | nil =>
    rw [hd] at h
    dsimp only at h
    exact tailSenderContent_sender t sender content h
  | cons c r =>
    rw [hd] at h
    dsimp only at h
    by_cases hc : dash c = true
    · rw [if_pos hc] at h
      cases hr : tailSenderContent r with
      | some q =>
        rw [hr, Option.some_orElse] at h
        exact tailSenderContent_sender r sender content (hr.trans h)
      | none =>
        rw [hr, Option.none_orElse] at h
        exact tailSenderContent_sender t sender content h
    · rw [if_neg hc] at h
      exact tailSenderContent_sender t sender content h

theorem bind_some_elim {α β : Type} (x : Option α) (f : α → Option β) (b : β)
    (h : x >>= f = some b) : ∃ a, x = some a ∧ f a = some b := by
  cases x with
  | none => cases h
  | some a => exact ⟨a, rfl, h⟩

theorem map_some_elim {α β : Type} (x : Option α) (f : α → β) (b : β)
    (h : x.map f = some b) : ∃ a, x = some a ∧ f a = b := by
  cases x with
  | none => cases h
  | some a =>
    cases h
    exact ⟨a, rfl, rfl⟩

theorem orElse_some_elim {α : Type} (x y : Option α) (b : α)
    (h : (x <|> y) = some b) : x = some b ∨ (x = none ∧ y = some b) := by
  cases x with
  | none => exact Or.inr ⟨rfl, h⟩
  | some a => exact Or.inl h

theorem p1msg_sender (l ts sender content : List Char)
    (h : p1msg l = some (ts, sender, content)) : ':' ∉ sender := by
  unfold p1msg at h
  split at h
  · obtain ⟨a, hdp, h⟩ := bind_some_elim _ _ _ h
    obtain ⟨dp, r1⟩ := a
    obtain ⟨b, hcw, h⟩ := bind_some_elim _ _ _ h
    obtain ⟨cw, r2⟩ := b
    obtain ⟨p, hp, hf⟩ := findSome?_mem _ _ _ h
    split at hf
    · obtain ⟨q, hq, hqq⟩ := map_some_elim _ _ _ hf
      obtain ⟨q1, q2⟩ := q
      cases hqq
      exact tailSenderContent_sender _ q1 q2 hq
    · cases hf
  · cases h

theorem p2msg_sender (l ts sender content : List Char)
    (h : p2msg l = some (ts, sender, content)) : ':' ∉ sender := by
  unfold p2msg at h
  obtain ⟨a, hdp, h⟩ := bind_some_elim _ _ _ h
  obtain ⟨dp, r1⟩ := a
  obtain ⟨b, hcw, h⟩ := bind_some_elim _ _ _ h
  obtain ⟨cw, r2⟩ := b
  obtain ⟨p, hp, hf⟩ := findSome?_mem _ _ _ h
  obtain ⟨q, hq, hqq⟩ := map_some_elim _ _ _ hf
  obtain ⟨q1, q2⟩ := q
  cases hqq
  exact tailReqDash_sender dash3 _ q1 q2 hq

theorem p3msg_sender (l ts sender content : List Char)
    (h : p3msg l = some (ts, sender, content)) : ':' ∉ sender := by
  unfold p3msg at h
  obtain ⟨a, hdp, h⟩ := bind_some_elim _ _ _ h
  obtain ⟨dp, r1⟩ := a
  obtain ⟨b, hw, h⟩ := bind_some_elim _ _ _ h
  obtain ⟨w, r2⟩ := b
  obtain ⟨p, hp, hf⟩ := findSome?_mem _ _ _ h
  obtain ⟨q, hq, hqq⟩ := map_some_elim _ _ _ hf
  obtain ⟨q1, q2⟩ := q
  cases hqq
  exact tailOptDash_sender dash3 _ q1 q2 hq

theorem p4msgBody_sender (l ts sender content : List Char)
    (h : p4msgBody l = some (ts, sender, content)) : ':' ∉ sender := by
  unfold p4msgBody at h
  obtain ⟨a, hdp, h⟩ := bind_some_elim _ _ _ h
  obtain ⟨dp, r1⟩ := a
  obtain ⟨b, hcw, h⟩ := bind_some_elim _ _ _ h
  obtain ⟨cw, r2⟩ := b
  obtain ⟨p, hp, hf⟩ := findSome?_mem _ _ _ h
  dsimp only at hf
  split at hf
  · split at hf
    · rcases orElse_some_elim _ _ _ hf with h1 | ⟨_, h1⟩ <;>
      · obtain ⟨q, hq, hqq⟩ := map_some_elim _ _ _ h1
        obtain ⟨q1, q2⟩ := q
        cases hqq
        exact tailOptDash_sender dash3 _ q1 q2 hq
    · obtain ⟨q, hq, hqq⟩ := map_some_elim _ _ _ hf
      obtain ⟨q1, q2⟩ := q
      cases hqq
      exact tailOptDash_sender dash3 _ q1 q2 hq
  · obtain ⟨q, hq, hqq⟩ := map_some_elim _ _ _ hf
    obtain ⟨q1, q2⟩ := q
    cases hqq
    exact tailOptDash_sender dash3 _ q1 q2 hq

theorem p4msg_sender (l ts sender content : List Char)
    (h : p4msg l = some (ts, sender, content)) : ':' ∉ sender := by
  unfold p4msg at h
  split at h
  · split at h
    · exact p4msgBody_sender _ _ _ _ h
    · exact p4msgBody_sender _ _ _ _ h
  · exact p4msgBody_sender _ _ _ _ h

theorem tryParseMessage_sender (l : List Char) (i : Nat) (ts sender content : List Char)
    (h : tryParseMessage l = some (i, ts, sender, content)) : ':' ∉ sender := by
  unfold tryParseMessage at h
  split at h
  · rename_i t s c heq
    cases h
    exact p1msg_sender l _ _ _ heq
  · split at h
    · rename_i t s c heq
      cases h
      exact p2msg_sender l _ _ _ heq
    · split at h
      · rename_i t s c heq
        cases h
        exact p3msg_sender l _ _ _ heq
      · split at h
        · rename_i t s c heq
          cases h
          exact p4msg_sender l _ _ _ heq
        · cases h

theorem jsTrim_subset (s : List Char) : jsTrim s ⊆ s := by
  intro x hx
  unfold jsTrim at hx
  rw [List.mem_reverse] at hx
  have hx2 := (List.dropWhile_sublist _).subset hx
  rw [List.mem_reverse] at hx2
  exact (List.dropWhile_sublist _).subset hx2

/-- Loop invariant for the sender-shape claim: every flushed record and
any open `currentMessage` has a colon-free sender. -/
def senderOK (st : LoopSt) : Prop :=
  (∀ r ∈ st.messages, ':' ∉ r.sender) ∧
  (∀ c, st.cur = some c → ':' ∉ c.sender)

theorem senderOK_flushCur (fmt : Option DateFmt) (st : LoopSt) (h : senderOK st) :
    senderOK (flushCur fmt st) := by
  unfold flushCur
  cases hc : st.cur with
  | none => exact h
  | some c =>
    refine ⟨?_, ?_⟩
    · intro r hr
      rw [List.mem_append] at hr
      rcases hr with hr | hr
      · exact h.1 r hr
      · rw [List.mem_singleton] at hr
        subst hr
        exact h.2 c hc
    · intro c2 hc2
      cases hc2

theorem senderOK_stepLine (fmt : Option DateFmt) (st : LoopSt) (rawLine : List Char)
    (h : senderOK st) : senderOK (stepLine fmt st rawLine) := by
  have hf := senderOK_flushCur fmt st h
  simp only [stepLine]
  split
  · exact h
  · split
    · rename_i i ts sender content heq
      refine ⟨?_, ?_⟩
      · intro r hr
        exact hf.1 r hr
      · intro c2 hc2
        cases hc2
        intro hx
        exact tryParseMessage_sender (jsTrim rawLine) i ts sender content heq
          (jsTrim_subset sender hx)
    · split
      · rename_i i ts content heq
        refine ⟨?_, ?_⟩
        · intro r hr
          exact hf.1 r hr
        · intro c2 hc2
          cases hc2
          show ':' ∉ "SYSTEM".data
          decide
      · split
        · rename_i c heq
          refine ⟨?_, ?_⟩
          · intro r hr
            exact h.1 r hr
          · intro c2 hc2
            cases hc2
            exact h.2 c heq
        · exact h

theorem senderOK_foldl (fmt : Option DateFmt) (lines : List (List Char)) (st : LoopSt)
    (h : senderOK st) : senderOK (lines.foldl (stepLine fmt) st) := by
  induction lines generalizing st with
  | nil => exact h
  | cons l ls ih => exact ih _ (senderOK_stepLine fmt st l h)

theorem parse_sender_no_colon (st : PState) (text : String) (r : Record)
    (hr : r ∈ (parse st text).2.messages) : ':' ∉ r.sender := by
  have h0 : senderOK ⟨[], [], none⟩ :=
    ⟨fun r hr => absurd hr (List.not_mem_nil r), fun c hc => by cases hc⟩
  have h2 := senderOK_flushCur
    (some (detectDateFormat (splitEach (fun c => c == '\n') text.data)).1)
    ((splitEach (fun c => c == '\n') text.data).foldl
      (stepLine (some (detectDateFormat (splitEach (fun c => c == '\n') text.data)).1))
      ⟨[], [], none⟩)
    (senderOK_foldl
      (some (detectDateFormat (splitEach (fun c => c == '\n') text.data)).1)
      (splitEach (fun c => c == '\n') text.data) ⟨[], [], none⟩ h0)
  exact h2.1 r hr

/-- An all-default `Record`, used only as a `headD` fallback. -/
def blankRecord : Record :=
  ⟨none, [], [], false, ⟨0, 0, false, false, false, false, 0, 0, none, none, none, none, none,
    none⟩⟩

end WhatsAppParser

/-- **C9** (counterexample to the non-emptiness conjunct): on the line
`[25/03/2024, 10:00]  : hi` the lazy sender group `[^:]+?` backtracks
into the whitespace run and captures a single space, so `parse` emits a
non-system record whose trimmed sender is the empty string — the
claimed "non-empty after trimming" invariant fails. -/
theorem c9_counterexample :
    ((WhatsAppParser.parse WhatsAppParser.initialState
        "[25/03/2024, 10:00]  : hi").2.messages.map
      (fun r => (r.isSystem, r.sender))) = [(false, [])] := by decide

/-- **C9** (amended): every record produced by `parse` with
`isSystem = false` has a colon-free sender — the sender capture group
`[^:]+?` of every message pattern excludes colons, and trimming only
removes characters.  (The original claim's further conjunct that the
trimmed sender is non-empty is refuted by `c9_counterexample`.) -/
theorem c9_amended (st : WhatsAppParser.PState) (text : String)
    (r : WhatsAppParser.Record)
    (hr : r ∈ (WhatsAppParser.parse st text).2.messages)
    (hsys : r.isSystem = false) : ':' ∉ r.sender :=
  WhatsAppParser.parse_sender_no_colon st text r hr

theorem c9_amended_witness :
    ':' ∉ ((WhatsAppParser.parse WhatsAppParser.initialState
        "25/03/2024, 10:00 - Alice: hi").2.messages.headD
        WhatsAppParser.blankRecord).sender :=
  c9_amended WhatsAppParser.initialState "25/03/2024, 10:00 - Alice: hi" _ (by decide) (by decide)


namespace WhatsAppParser

/-- The spec's `sum(messagesBySender values)`: JS addition over the
object's values, with `NaN` (`none`) poisoning the total. -/
def sumVals : List (List Char × Option Int) → Option Int
  | [] => some 0
  | q :: m => q.2.bind (fun a => (sumVals m).map (fun s => a + s))

theorem jsObjGet_mem_keys {κ α : Type} [BEq κ] [LawfulBEq κ]
    (m : List (κ × α)) (k : κ) (v : α) (hget : jsObjGet m k = some v) :
    k ∈ m.map Prod.fst := by
  unfold jsObjGet at hget
  cases hf : m.find? (fun p => p.1 == k) with
  | none => rw [hf] at hget; cases hget
  | some q =>
    have hq := List.find?_some hf
    have hqm := List.mem_of_find?_eq_some hf
    exact List.mem_map.mpr ⟨q, hqm, eq_of_beq hq⟩

theorem sumVals_update (k : List Char) (n : Int) :
    ∀ m : List (List Char × Option Int), (m.map Prod.fst).Nodup →
      jsObjGet m k = some (some n) →
      sumVals (m.map (fun p => if p.1 == k then (p.1, some (n + 1)) else p)) =
        (sumVals m).map (fun s => s + 1) := by
  intro m
  induction m with
  | nil => intro _ hget; cases hget
  | cons a m ih =>
    intro hnd hget
    have hnd2 : a.1 ∉ m.map Prod.fst ∧ (m.map Prod.fst).Nodup := by
      rw [List.map_cons] at hnd
      exact List.nodup_cons.mp hnd
    by_cases ha : (a.1 == k) = true
    · have hak : a.1 = k := eq_of_beq ha
      have hfind : (a :: m).find? (fun q => q.1 == k) = some a :=
        List.find?_cons_of_pos _ ha
      have ha2 : a.2 = some n := by
        simp only [jsObjGet, hfind, Option.map_some'] at hget
        exact Option.some.inj hget
      have hmap : m.map (fun p => if p.1 == k then (p.1, some (n + 1)) else p) = m := by
        have hcongr : ∀ q ∈ m,
            (if q.1 == k then (q.1, some (n + 1)) else q) = id q := by
          intro q hq
          have hqk : (q.1 == k) = false := by
            rw [beq_eq_false_iff_ne]
            intro hqe
            exact hnd2.1 (by
              rw [hak, ← hqe]
              exact List.mem_map_of_mem Prod.fst hq)
          rw [hqk]
          rfl
        rw [List.map_congr_left hcongr, List.map_id]
      rw [List.map_cons, if_pos ha, hmap]
      simp only [sumVals, ha2, Option.some_bind]
      cases hs : sumVals m with
      | none => rfl
      | some s =>
        simp only [Option.map_some']
        congr 1
        omega
    · have hfalse : (a.1 == k) = false := by
        cases h : (a.1 == k) with
        | true => exact absurd h ha
        | false => rfl
      have hget2 : jsObjGet m k = some (some n) := by
        simp only [jsObjGet, List.find?_cons, hfalse] at hget
        exact hget
      have ih2 := ih hnd2.2 hget2
      rw [List.map_cons, if_neg (by rw [hfalse]; exact Bool.false_ne_true)]
      simp only [sumVals, ih2]
      cases ha2 : a.2 with
      | none => rfl
      | some av =>
        simp only [Option.some_bind]
        cases hs : sumVals m with
        | none => rfl
        | some s =>
          simp only [Option.map_some']
          congr 1
          omega

theorem sumVals_set (m : List (List Char × Option Int)) (k : List Char) (n : Int)
    (hnd : (m.map Prod.fst).Nodup) (hget : jsObjGet m k = some (some n)) :
    sumVals (jsObjSet m k (some (n + 1))) = (sumVals m).map (fun s => s + 1) := by
  unfold jsObjSet
  have hany : m.any (fun p => p.1 == k) = true := by
    unfold jsObjGet at hget
    cases hf : m.find? (fun p => p.1 == k) with
    | none => rw [hf] at hget; cases hget
    | some q =>
      have hq := List.find?_some hf
      have hqm := List.mem_of_find?_eq_some hf
      exact List.any_eq_true.mpr ⟨q, hqm, hq⟩
  rw [if_pos hany]
  exact sumVals_update k n m hnd hget

end WhatsAppParser

namespace WhatsAppParser

theorem jsObjSet_allSome (m : List (List Char × Option Int)) (k : List Char) (v : Option Int)
    (hm : ∀ q ∈ m, ∃ j : Int, q.2 = some j) (hv : ∃ j : Int, v = some j) :
    ∀ q ∈ jsObjSet m k v, ∃ j : Int, q.2 = some j := by
  unfold jsObjSet
  split
  · intro q hq
    obtain ⟨q0, hq0, hq0e⟩ := List.mem_map.mp hq
    subst hq0e
    by_cases h : (q0.1 == k) = true
    · rw [if_pos h]
      exact hv
    · rw [if_neg h]
      exact hm q0 hq0
  · intro q hq
    rw [List.mem_append] at hq
    rcases hq with hq | hq
    · exact hm q hq
    · rw [List.mem_singleton] at hq
      subst hq
      exact hv

theorem jsObjSet_keys_nodup (m : List (List Char × Option Int)) (k : List Char)
    (v : Option Int) (hnd : (m.map Prod.fst).Nodup) :
    ((jsObjSet m k v).map Prod.fst).Nodup := by
  rw [WhatsAppAnalytics.jsObjSet_map_fst]
  split
  · exact hnd
  · rename_i hk
    rw [List.nodup_append]
    exact ⟨hnd, List.nodup_singleton k,
      fun x hx hxk => hk ((List.mem_singleton.mp hxk) ▸ hx)⟩

theorem initFold_allSome (ps : List (List Char)) :
    ∀ m : List (List Char × Option Int), (∀ q ∈ m, ∃ j : Int, q.2 = some j) →
      ∀ q ∈ ps.foldl (fun m p => jsObjSet m p (some 0)) m, ∃ j : Int, q.2 = some j := by
  induction ps with
  | nil => intro m hm; exact hm
  | cons p ps ih =>
    intro m hm
    rw [List.foldl_cons]
    exact ih _ (jsObjSet_allSome m p (some 0) hm ⟨0, rfl⟩)

theorem initFold_nodup (ps : List (List Char)) :
    ∀ m : List (List Char × Option Int), (m.map Prod.fst).Nodup →
      ((ps.foldl (fun m p => jsObjSet m p (some 0)) m).map Prod.fst).Nodup := by
  induction ps with
  | nil => intro m hm; exact hm
  | cons p ps ih =>
    intro m hm
    rw [List.foldl_cons]
    exact ih _ (jsObjSet_keys_nodup m p (some 0) hm)

theorem find?_isSome_of_get (m : List (List Char × Option Int)) (k : List Char)
    (v : Option Int) (hget : jsObjGet m k = some v) :
    (m.find? (fun q => q.1 == k)).isSome = true := by
  unfold jsObjGet at hget
  cases hf : m.find? (fun q => q.1 == k) with
  | none => rw [hf] at hget; cases hget
  | some _ => rfl

theorem chatFold_sum (parts : List (List Char)) :
    ∀ (msgs : List Record) (m : List (List Char × Option Int)) (S : Int),
      (m.map Prod.fst).Nodup →
      (∀ q ∈ m, ∃ j : Int, q.2 = some j) →
      (∀ r ∈ msgs, r.isSystem = false → r.sender ∈ parts) →
      (∀ p ∈ parts, (m.find? (fun q => q.1 == p)).isSome) →
      sumVals m = some S →
      sumVals (msgs.foldl chatStep m) =
        some (S + (msgs.countP (fun r => !r.isSystem) : Int)) := by
  intro msgs
  induction msgs with
  | nil =>
    intro m S _ _ _ _ hsum
    rw [List.foldl_nil, hsum, List.countP_nil]
    simp
  | cons r rest ih =>
    intro m S hnd hall hsend hpart hsum
    rw [List.foldl_cons]
    cases hsys : r.isSystem with
    | true =>
      have hstep : chatStep m r = m := by
        unfold chatStep
        rw [if_pos hsys]
      rw [hstep]
      have hcnt : ((r :: rest).countP (fun r => !r.isSystem)) =
          (rest.countP (fun r => !r.isSystem)) := by
        rw [List.countP_cons]
        simp [hsys]
      rw [hcnt]
      exact ih m S hnd hall (fun x hx => hsend x (List.mem_cons_of_mem r hx)) hpart hsum
    | false =>
      have hmem : r.sender ∈ parts := hsend r (List.mem_cons_self r rest) hsys
      obtain ⟨q, hq⟩ := Option.isSome_iff_exists.mp (hpart r.sender hmem)
      have hqm := List.mem_of_find?_eq_some hq
      obtain ⟨j, hj⟩ := hall q hqm
      have hget : jsObjGet m r.sender = some (some j) := by
        unfold jsObjGet
        rw [hq, Option.map_some', hj]
      have hstep : chatStep m r = jsObjSet m r.sender (some (j + 1)) := by
        unfold chatStep
        rw [if_neg (by rw [hsys]; exact Bool.false_ne_true), hget]
      rw [hstep]
      have hnd2 := jsObjSet_keys_nodup m r.sender (some (j + 1)) hnd
      have hall2 := jsObjSet_allSome m r.sender (some (j + 1)) hall ⟨j + 1, rfl⟩
      have hpart2 : ∀ p ∈ parts,
          ((jsObjSet m r.sender (some (j + 1))).find? (fun q => q.1 == p)).isSome := by
        intro p hp
        obtain ⟨q0, hq0⟩ := Option.isSome_iff_exists.mp (hpart p hp)
        have hold : jsObjGet m p = some q0.2 := by
          unfold jsObjGet
          rw [hq0, Option.map_some']
        have hkeep := jsObjGet_jsObjSet m r.sender p (some (j + 1))
        by_cases hpr : (p == r.sender) = true
        · rw [if_pos hpr] at hkeep
          exact find?_isSome_of_get _ _ _ hkeep
        · rw [if_neg hpr, hold] at hkeep
          exact find?_isSome_of_get _ _ _ hkeep
      have hsum2 : sumVals (jsObjSet m r.sender (some (j + 1))) = some (S + 1) := by
        rw [sumVals_set m r.sender j hnd hget, hsum, Option.map_some']
      have hres := ih (jsObjSet m r.sender (some (j + 1))) (S + 1) hnd2 hall2
        (fun x hx => hsend x (List.mem_cons_of_mem r hx)) hpart2 hsum2
      rw [hres]
      have hcnt : ((r :: rest).countP (fun r => !r.isSystem)) =
          (rest.countP (fun r => !r.isSystem)) + 1 := by
        rw [List.countP_cons]
        simp [hsys]
      rw [hcnt]
      congr 1
      push_cast
      omega

end WhatsAppParser

namespace WhatsAppParser

/-- Loop invariant for participant registration: every flushed record
whose sender is not the `SYSTEM` sentinel has its sender in the
participant set. -/
def senderReg (st : LoopSt) : Prop :=
  ∀ r ∈ st.messages, r.sender ≠ "SYSTEM".data → r.sender ∈ st.participants

theorem senderReg_flushCur (fmt : Option DateFmt) (st : LoopSt) (h : senderReg st) :
    senderReg (flushCur fmt st) := by
  unfold flushCur
  cases hc : st.cur with
  | none => exact h
  | some c =>
    intro r hr hsys
    rw [List.mem_append] at hr
    rcases hr with hr | hr
    · have hmem := h r hr hsys
      show r.sender ∈
        (if c.sender = "SYSTEM".data then st.participants
         else if st.participants.contains c.sender then st.participants
         else st.participants ++ [c.sender])
      split
      · exact hmem
      · split
        · exact hmem
        · exact List.mem_append_left _ hmem
    · rw [List.mem_singleton] at hr
      subst hr
      show (processMessage fmt c).sender ∈
        (if c.sender = "SYSTEM".data then st.participants
         else if st.participants.contains c.sender then st.participants
         else st.participants ++ [c.sender])
      have hsys2 : ¬(c.sender = "SYSTEM".data) := hsys
      rw [if_neg hsys2]
      by_cases h2 : st.participants.contains c.sender = true
      · rw [if_pos h2]
        have : c.sender ∈ st.participants := by
          simpa using h2
        exact this
      · rw [if_neg h2]
        exact List.mem_append_right _ (List.mem_singleton.mpr rfl)

theorem senderReg_stepLine (fmt : Option DateFmt) (st : LoopSt) (rawLine : List Char)
    (h : senderReg st) : senderReg (stepLine fmt st rawLine) := by
  have hf := senderReg_flushCur fmt st h
  simp only [stepLine]
  split
  · exact h
  · split
    · exact fun r hr hs => hf r hr hs
    · split
      · exact fun r hr hs => hf r hr hs
      · split
        · exact fun r hr hs => h r hr hs
        · exact h

theorem senderReg_foldl (fmt : Option DateFmt) (lines : List (List Char)) (st : LoopSt)
    (h : senderReg st) : senderReg (lines.foldl (stepLine fmt) st) := by
  induction lines generalizing st with
  | nil => exact h
  | cons l ls ih => exact ih _ (senderReg_stepLine fmt st l h)

theorem parse_sender_mem (st : PState) (text : String) (r : Record)
    (hr : r ∈ (parse st text).2.messages) (hsys : r.sender ≠ "SYSTEM".data) :
    r.sender ∈ (parse st text).2.participants := by
  have h0 : senderReg ⟨[], [], none⟩ := fun r hr _ => absurd hr (List.not_mem_nil r)
  have h2 := senderReg_flushCur
    (some (detectDateFormat (splitEach (fun c => c == '\n') text.data)).1)
    ((splitEach (fun c => c == '\n') text.data).foldl
      (stepLine (some (detectDateFormat (splitEach (fun c => c == '\n') text.data)).1))
      ⟨[], [], none⟩)
    (senderReg_foldl
      (some (detectDateFormat (splitEach (fun c => c == '\n') text.data)).1)
      (splitEach (fun c => c == '\n') text.data) ⟨[], [], none⟩ h0)
  exact h2 r hr hsys

end WhatsAppParser

namespace WhatsAppParser

theorem jsObjSet_zero (m : List (List Char × Option Int)) (k : List Char)
    (hm : ∀ q ∈ m, q.2 = some (0 : Int)) :
    ∀ q ∈ jsObjSet m k (some 0), q.2 = some (0 : Int) := by
  unfold jsObjSet
  split
  · intro q hq
    obtain ⟨q0, hq0, hq0e⟩ := List.mem_map.mp hq
    subst hq0e
    by_cases h : (q0.1 == k) = true
    · rw [if_pos h]
    · rw [if_neg h]
      exact hm q0 hq0
  · intro q hq
    rw [List.mem_append] at hq
    rcases hq with hq | hq
    · exact hm q hq
    · rw [List.mem_singleton] at hq
      subst hq
      rfl

theorem initFold_zero (ps : List (List Char)) :
    ∀ m : List (List Char × Option Int), (∀ q ∈ m, q.2 = some (0 : Int)) →
      ∀ q ∈ ps.foldl (fun m p => jsObjSet m p (some 0)) m, q.2 = some (0 : Int) := by
  induction ps with
  | nil => intro m hm; exact hm
  | cons p ps ih =>
    intro m hm
    rw [List.foldl_cons]
    exact ih _ (jsObjSet_zero m p hm)

theorem sumVals_zero :
    ∀ m : List (List Char × Option Int), (∀ q ∈ m, q.2 = some 0) → sumVals m = some 0 := by
  intro m
  induction m with
  | nil => intro _; rfl
  | cons q m ih =>
    intro h
    have hq := h q (List.mem_cons_self q m)
    have hm := ih (fun x hx => h x (List.mem_cons_of_mem q hx))
    simp [sumVals, hq, hm]

theorem chatStats_roundtrip (pd : ParseResult)
    (hsend : ∀ r ∈ pd.messages, r.isSystem = false → r.sender ∈ pd.participants) :
    ∃ s : Int,
      sumVals (getChatStats pd).messagesBySender = some s ∧
      s + (pd.messages.countP (fun r => r.isSystem) : Int) =
        ((getChatStats pd).totalMessages : Int) := by
  have hinit_nodup := initFold_nodup pd.participants [] (by simp)
  have hinit_all := initFold_allSome pd.participants []
    (fun q hq => absurd hq (List.not_mem_nil q))
  have hinit_zero := initFold_zero pd.participants []
    (fun q hq => absurd hq (List.not_mem_nil q))
  have hinit_sum := sumVals_zero _ hinit_zero
  have hinit_part : ∀ p ∈ pd.participants,
      (((pd.participants.foldl (fun m p => jsObjSet m p (some (0 : Int))) []).find?
        (fun q => q.1 == p)).isSome = true) := by
    intro p hp
    have hget := jsObjGet_init pd.participants (some (0 : Int)) p []
    rw [if_pos hp] at hget
    exact find?_isSome_of_get _ _ _ hget
  have hmain := chatFold_sum pd.participants pd.messages
    (pd.participants.foldl (fun m p => jsObjSet m p (some 0)) []) 0
    hinit_nodup hinit_all hsend hinit_part hinit_sum
  refine ⟨0 + (pd.messages.countP (fun r => !r.isSystem) : Int), hmain, ?_⟩
  have htot : (getChatStats pd).totalMessages = pd.messages.length := rfl
  have hcnt : pd.messages.countP (fun a => decide ¬(a.isSystem = true)) =
      pd.messages.countP (fun r => !r.isSystem) := by
    apply List.countP_congr
    intro a _
    cases h : a.isSystem <;> simp [h]
  rw [htot, List.length_eq_countP_add_countP (fun r : Record => r.isSystem), hcnt]
  omega

end WhatsAppParser

/-- **C4** (counterexample): a user literally named `SYSTEM` defeats the
count round trip.  On `25/03/2024, 10:00 - SYSTEM: hello` the message
parses as a regular (non-system) record, but `flushCur` refuses to
register the `SYSTEM` sender as a participant, so `getChatStats`
increments an `undefined` counter to `NaN`: the sum of
`messagesBySender` values is `NaN` (no integer), yet one record was
consumed as a non-system message and `totalMessages = 1`. -/
theorem c4_counterexample :
    WhatsAppParser.sumVals (WhatsAppParser.getChatStats
        (WhatsAppParser.parse WhatsAppParser.initialState
          "25/03/2024, 10:00 - SYSTEM: hello").2).messagesBySender = none ∧
    (WhatsAppParser.parse WhatsAppParser.initialState
        "25/03/2024, 10:00 - SYSTEM: hello").2.messages.countP (fun r => r.isSystem) = 0 ∧
    (WhatsAppParser.getChatStats (WhatsAppParser.parse WhatsAppParser.initialState
        "25/03/2024, 10:00 - SYSTEM: hello").2).totalMessages = 1 := by
  exact ⟨by decide, by decide, by decide⟩

/-- **C4** (amended): for every parse in which no non-system record has
the literal sender `SYSTEM`, the sum of `messagesBySender` values is a
real number and it plus the number of system records equals
`totalMessages` — every record is counted exactly once, under its
sender or as a system message.  (The unrestricted claim fails when a
user is named `SYSTEM`: see `c4_counterexample`.) -/
theorem c4_amended (st : WhatsAppParser.PState) (text : String)
    (hns : ∀ r ∈ (WhatsAppParser.parse st text).2.messages,
      r.isSystem = false → r.sender ≠ "SYSTEM".data) :
    ∃ s : Int,
      WhatsAppParser.sumVals
        (WhatsAppParser.getChatStats (WhatsAppParser.parse st text).2).messagesBySender =
        some s ∧
      s + ((WhatsAppParser.parse st text).2.messages.countP (fun r => r.isSystem) : Int) =
        ((WhatsAppParser.getChatStats (WhatsAppParser.parse st text).2).totalMessages : Int) :=
  WhatsAppParser.chatStats_roundtrip (WhatsAppParser.parse st text).2
    (fun r hr hsys => WhatsAppParser.parse_sender_mem st text r hr (hns r hr hsys))

theorem c4_amended_witness :
    ∃ s : Int,
      WhatsAppParser.sumVals (WhatsAppParser.getChatStats
          (WhatsAppParser.parse WhatsAppParser.initialState
            "25/03/2024, 10:00 - Alice: hi\n25/03/2024, 10:05 - Bob: yo").2).messagesBySender =
        some s ∧
      s + ((WhatsAppParser.parse WhatsAppParser.initialState
          "25/03/2024, 10:00 - Alice: hi\n25/03/2024, 10:05 - Bob: yo").2.messages.countP
            (fun r => r.isSystem) : Int) =
        ((WhatsAppParser.getChatStats (WhatsAppParser.parse WhatsAppParser.initialState
            "25/03/2024, 10:00 - Alice: hi\n25/03/2024, 10:05 - Bob: yo").2).totalMessages :
          Int) :=
  c4_amended WhatsAppParser.initialState
    "25/03/2024, 10:00 - Alice: hi\n25/03/2024, 10:05 - Bob: yo" (by decide)

namespace WhatsAppParser

theorem bind_some_eq {α β : Type} (a : α) (f : α → Option β) : (some a >>= f) = f a := rfl

theorem takeWhile_append_not (p : Char → Bool) (d : List Char) (c0 : Char) (t : List Char)
    (hall : ∀ c ∈ d, p c = true) (hc0 : p c0 = false) :
    (d ++ c0 :: t).takeWhile p = d ∧ (d ++ c0 :: t).dropWhile p = c0 :: t := by
  induction d with
  | nil => simp [List.takeWhile_cons, List.dropWhile_cons, hc0]
  | cons a d ih =>
    have ha := hall a (List.mem_cons_self a d)
    have ih2 := ih (fun c hc => hall c (List.mem_cons_of_mem a hc))
    simp [List.takeWhile_cons, List.dropWhile_cons, ha, ih2.1, ih2.2]

theorem digitsRange_prefix (lo hi : Nat) (d : List Char) (c0 : Char) (t : List Char)
    (hall : ∀ c ∈ d, c.isDigit = true) (hc0 : c0.isDigit = false)
    (hlo : lo ≤ d.length) (hhi : d.length ≤ hi) :
    digitsRange lo hi (d ++ c0 :: t) = some (d, c0 :: t) := by
  obtain ⟨h1, h2⟩ := takeWhile_append_not Char.isDigit d c0 t hall hc0
  simp only [digitsRange, h1, h2]
  simp [hlo, hhi]

theorem digitsExact_prefix (n : Nat) (d t : List Char)
    (hall : ∀ c ∈ d, c.isDigit = true) (hlen : d.length = n) :
    digitsExact n (d ++ t) = some (d, t) := by
  subst hlen
  have hall2 : d.all Char.isDigit = true := List.all_eq_true.mpr hall
  simp only [digitsExact, List.take_left, List.drop_left, hall2]
  simp

theorem timeMatchAt_render (a : Char) (hd0 mm tail2 : List Char)
    (hhdall : ∀ c ∈ a :: hd0, c.isDigit = true) (hhdlen : (a :: hd0).length ≤ 2)
    (hmmall : ∀ c ∈ mm, c.isDigit = true) (hmmlen : mm.length = 2) :
    timeMatchAt ((a :: hd0) ++ ':' :: (mm ++ tail2)) =
      some (a :: hd0, mm, (timeSec tail2).1, timeMer (timeSec tail2).2) := by
  have hR := digitsRange_prefix 1 2 (a :: hd0) ':' (mm ++ tail2) hhdall (by decide)
    (by simp) hhdlen
  have hE := digitsExact_prefix 2 mm tail2 hmmall hmmlen
  unfold timeMatchAt
  rw [hR, bind_some_eq]
  dsimp only
  split
  · rename_i r2 heq
    rw [List.cons.injEq] at heq
    rw [← heq.2, hE]
  · rename_i hne
    exact absurd rfl (hne (mm ++ tail2))

end WhatsAppParser

namespace WhatsAppParser

theorem timeSec_cons_digits (ss t : List Char) (hall : ∀ c ∈ ss, c.isDigit = true)
    (hlen : ss.length = 2) : timeSec (':' :: (ss ++ t)) = (some ss, t) := by
  have hE := digitsExact_prefix 2 ss t hall hlen
  unfold timeSec
  split
  · rename_i rr heq
    rw [List.cons.injEq] at heq
    rw [← heq.2, hE]
  · rename_i hne
    exact absurd rfl (hne (ss ++ t))

theorem parseTimeHMS_render (a : Char) (hd0 mm tail2 : List Char)
    (sec0 : Option (List Char)) (rest0 : List Char) (mer0 : Option (Char × Char))
    (hhdall : ∀ c ∈ a :: hd0, c.isDigit = true) (hhdlen : (a :: hd0).length ≤ 2)
    (hmmall : ∀ c ∈ mm, c.isDigit = true) (hmmlen : mm.length = 2)
    (hts : timeSec tail2 = (sec0, rest0)) (hmer0 : timeMer rest0 = mer0) :
    parseTimeHMS ((a :: hd0) ++ ':' :: (mm ++ tail2)) =
      hmsFromCaptures (a :: hd0) mm sec0 mer0 := by
  have hM := timeMatchAt_render a hd0 mm tail2 hhdall hhdlen hmmall hmmlen
  rw [hts] at hM
  dsimp only at hM
  rw [hmer0] at hM
  have hTS : timeSearch ((a :: hd0) ++ ':' :: (mm ++ tail2)) =
      some (a :: hd0, mm, sec0, mer0) := by
    rw [List.cons_append]
    show (timeMatchAt (a :: (hd0 ++ ':' :: (mm ++ tail2))) <|>
        timeSearch (hd0 ++ ':' :: (mm ++ tail2))) = some (a :: hd0, mm, sec0, mer0)
    rw [← List.cons_append, hM]
    rfl
  unfold parseTimeHMS
  rw [hTS]

end WhatsAppParser

/-- **C5**: 12-hour time conversion.  For every time string of the form
`H:MM`, `H:MM:SS`, optionally followed by `AM`/`PM` (case-insensitive,
optional preceding space), `parseTimeHMS` returns the minute value
unchanged, seconds defaulting to 0 when absent, and the hour converted
by the 12-hour rule: a `P` marker with hour ≠ 12 adds 12, an `A` marker
with hour = 12 yields 0, and the hour is unchanged otherwise. -/
theorem c5_twelve_hour_conversion
    (hd mm : List Char) (sec : Option (List Char)) (mer : Option (Bool × Char × Char))
    (hhd : (hd.length = 1 ∨ hd.length = 2) ∧ ∀ c ∈ hd, c.isDigit = true)
    (hmm : mm.length = 2 ∧ ∀ c ∈ mm, c.isDigit = true)
    (hsec : ∀ ss ∈ sec, ss.length = 2 ∧ ∀ c ∈ ss, c.isDigit = true)
    (hmer : ∀ q ∈ mer, (q.2.1 = 'A' ∨ q.2.1 = 'a' ∨ q.2.1 = 'P' ∨ q.2.1 = 'p') ∧
      (q.2.2 = 'M' ∨ q.2.2 = 'm')) :
    WhatsAppParser.parseTimeHMS (hd ++ ':' ::
        (mm ++ ((match sec with | some ss => ':' :: ss | none => []) ++
          (match mer with
           | some (sp, c1, c2) => (if sp then [' '] else []) ++ [c1, c2]
           | none => [])))) =
      (some (match mer with
        | some (_, c1, _) =>
          if (c1 = 'P' ∨ c1 = 'p') ∧ (digitsToNat hd : Int) ≠ 12 then
            (digitsToNat hd : Int) + 12
          else if (c1 = 'A' ∨ c1 = 'a') ∧ (digitsToNat hd : Int) = 12 then 0
          else (digitsToNat hd : Int)
        | none => (digitsToNat hd : Int)),
       some (digitsToNat mm : Int),
       some (match sec with | some ss => (digitsToNat ss : Int) | none => 0)) := by
  obtain ⟨hhdlen, hhdall⟩ := hhd
  obtain ⟨hmmlen, hmmall⟩ := hmm
  have hdshape : ∃ x xs, hd = x :: xs ∧ (x :: xs).length ≤ 2 := by
    rcases hhdlen with h | h
    · obtain ⟨x, hx⟩ := List.length_eq_one.mp h
      exact ⟨x, [], hx, by simp⟩
    · obtain ⟨x, y, hxy⟩ := List.length_eq_two.mp h
      exact ⟨x, [y], hxy, by simp⟩
  obtain ⟨x, xs, hhd2, hlen2⟩ := hdshape
  subst hhd2
  cases mer with
  | none =>
    cases sec with
    | none =>
      refine Eq.trans (WhatsAppParser.parseTimeHMS_render x xs mm _ _ _ _
        hhdall hlen2 hmmall hmmlen (by rfl) (by rfl)) ?_
      rfl
    | some ss =>
      obtain ⟨hsslen, hssall⟩ := hsec ss rfl
      refine Eq.trans (WhatsAppParser.parseTimeHMS_render x xs mm _ _ _ _
        hhdall hlen2 hmmall hmmlen
        (WhatsAppParser.timeSec_cons_digits ss _ hssall hsslen) (by rfl)) ?_
      rfl
  | some q =>
    obtain ⟨sp, c1, c2⟩ := q
    obtain ⟨hc1, hc2⟩ := hmer (sp, c1, c2) rfl
    cases sec with
    | none =>
      rcases hc1 with hc1 | hc1 | hc1 | hc1
      · subst hc1
        rcases hc2 with hc2 | hc2
        · subst hc2
          cases sp
          · refine Eq.trans (WhatsAppParser.parseTimeHMS_render x xs mm
              (['A', 'M']) none (['A', 'M']) (some ('A', 'M'))
              hhdall hlen2 hmmall hmmlen (by rfl) (by decide)) ?_
            by_cases h12 : (digitsToNat (x :: xs) : Int) = 12 <;>
              simp [WhatsAppParser.hmsFromCaptures, h12]
          · refine Eq.trans (WhatsAppParser.parseTimeHMS_render x xs mm
              ([' ', 'A', 'M']) none ([' ', 'A', 'M']) (some ('A', 'M'))
              hhdall hlen2 hmmall hmmlen (by rfl) (by decide)) ?_
            by_cases h12 : (digitsToNat (x :: xs) : Int) = 12 <;>
              simp [WhatsAppParser.hmsFromCaptures, h12]
        · subst hc2
          cases sp
          · refine Eq.trans (WhatsAppParser.parseTimeHMS_render x xs mm
              (['A', 'm']) none (['A', 'm']) (some ('A', 'm'))
              hhdall hlen2 hmmall hmmlen (by rfl) (by decide)) ?_
            by_cases h12 : (digitsToNat (x :: xs) : Int) = 12 <;>
              simp [WhatsAppParser.hmsFromCaptures, h12]
          · refine Eq.trans (WhatsAppParser.parseTimeHMS_render x xs mm
              ([' ', 'A', 'm']) none ([' ', 'A', 'm']) (some ('A', 'm'))
              hhdall hlen2 hmmall hmmlen (by rfl) (by decide)) ?_
            by_cases h12 : (digitsToNat (x :: xs) : Int) = 12 <;>
              simp [WhatsAppParser.hmsFromCaptures, h12]
      · subst hc1
        rcases hc2 with hc2 | hc2
        · subst hc2
          cases sp
          · refine Eq.trans (WhatsAppParser.parseTimeHMS_render x xs mm
              (['a', 'M']) none (['a', 'M']) (some ('a', 'M'))
              hhdall hlen2 hmmall hmmlen (by rfl) (by decide)) ?_
            by_cases h12 : (digitsToNat (x :: xs) : Int) = 12 <;>
              simp [WhatsAppParser.hmsFromCaptures, h12]
          · refine Eq.trans (WhatsAppParser.parseTimeHMS_render x xs mm
              ([' ', 'a', 'M']) none ([' ', 'a', 'M']) (some ('a', 'M'))
              hhdall hlen2 hmmall hmmlen (by rfl) (by decide)) ?_
            by_cases h12 : (digitsToNat (x :: xs) : Int) = 12 <;>
              simp [WhatsAppParser.hmsFromCaptures, h12]
        · subst hc2
          cases sp
          · refine Eq.trans (WhatsAppParser.parseTimeHMS_render x xs mm
              (['a', 'm']) none (['a', 'm']) (some ('a', 'm'))
              hhdall hlen2 hmmall hmmlen (by rfl) (by decide)) ?_
            by_cases h12 : (digitsToNat (x :: xs) : Int) = 12 <;>
              simp [WhatsAppParser.hmsFromCaptures, h12]
          · refine Eq.trans (WhatsAppParser.parseTimeHMS_render x xs mm
              ([' ', 'a', 'm']) none ([' ', 'a', 'm']) (some ('a', 'm'))
              hhdall hlen2 hmmall hmmlen (by rfl) (by decide)) ?_
            by_cases h12 : (digitsToNat (x :: xs) : Int) = 12 <;>
              simp [WhatsAppParser.hmsFromCaptures, h12]
      · subst hc1
        rcases hc2 with hc2 | hc2
        · subst hc2
          cases sp
          · refine Eq.trans (WhatsAppParser.parseTimeHMS_render x xs mm
              (['P', 'M']) none (['P', 'M']) (some ('P', 'M'))
              hhdall hlen2 hmmall hmmlen (by rfl) (by decide)) ?_
            by_cases h12 : (digitsToNat (x :: xs) : Int) = 12 <;>
              simp [WhatsAppParser.hmsFromCaptures, h12]
          · refine Eq.trans (WhatsAppParser.parseTimeHMS_render x xs mm
              ([' ', 'P', 'M']) none ([' ', 'P', 'M']) (some ('P', 'M'))
              hhdall hlen2 hmmall hmmlen (by rfl) (by decide)) ?_
            by_cases h12 : (digitsToNat (x :: xs) : Int) = 12 <;>
              simp [WhatsAppParser.hmsFromCaptures, h12]
        · subst hc2
          cases sp
          · refine Eq.trans (WhatsAppParser.parseTimeHMS_render x xs mm
              (['P', 'm']) none (['P', 'm']) (some ('P', 'm'))
              hhdall hlen2 hmmall hmmlen (by rfl) (by decide)) ?_
            by_cases h12 : (digitsToNat (x :: xs) : Int) = 12 <;>
              simp [WhatsAppParser.hmsFromCaptures, h12]
          · refine Eq.trans (WhatsAppParser.parseTimeHMS_render x xs mm
              ([' ', 'P', 'm']) none ([' ', 'P', 'm']) (some ('P', 'm'))
              hhdall hlen2 hmmall hmmlen (by rfl) (by decide)) ?_
            by_cases h12 : (digitsToNat (x :: xs) : Int) = 12 <;>
              simp [WhatsAppParser.hmsFromCaptures, h12]
      · subst hc1
        rcases hc2 with hc2 | hc2
        · subst hc2
          cases sp
          · refine Eq.trans (WhatsAppParser.parseTimeHMS_render x xs mm
              (['p', 'M']) none (['p', 'M']) (some ('p', 'M'))
              hhdall hlen2 hmmall hmmlen (by rfl) (by decide)) ?_
            by_cases h12 : (digitsToNat (x :: xs) : Int) = 12 <;>
              simp [WhatsAppParser.hmsFromCaptures, h12]
          · refine Eq.trans (WhatsAppParser.parseTimeHMS_render x xs mm
              ([' ', 'p', 'M']) none ([' ', 'p', 'M']) (some ('p', 'M'))
              hhdall hlen2 hmmall hmmlen (by rfl) (by decide)) ?_
            by_cases h12 : (digitsToNat (x :: xs) : Int) = 12 <;>
              simp [WhatsAppParser.hmsFromCaptures, h12]
        · subst hc2
          cases sp
          · refine Eq.trans (WhatsAppParser.parseTimeHMS_render x xs mm
              (['p', 'm']) none (['p', 'm']) (some ('p', 'm'))
              hhdall hlen2 hmmall hmmlen (by rfl) (by decide)) ?_
            by_cases h12 : (digitsToNat (x :: xs) : Int) = 12 <;>
              simp [WhatsAppParser.hmsFromCaptures, h12]
          · refine Eq.trans (WhatsAppParser.parseTimeHMS_render x xs mm
              ([' ', 'p', 'm']) none ([' ', 'p', 'm']) (some ('p', 'm'))
              hhdall hlen2 hmmall hmmlen (by rfl) (by decide)) ?_
            by_cases h12 : (digitsToNat (x :: xs) : Int) = 12 <;>
              simp [WhatsAppParser.hmsFromCaptures, h12]
    | some ss =>
      obtain ⟨hsslen, hssall⟩ := hsec ss rfl
      rcases hc1 with hc1 | hc1 | hc1 | hc1
      · subst hc1
        rcases hc2 with hc2 | hc2
        · subst hc2
          cases sp
          · refine Eq.trans (WhatsAppParser.parseTimeHMS_render x xs mm
              (':' :: (ss ++ ['A', 'M'])) (some ss) (['A', 'M']) (some ('A', 'M'))
              hhdall hlen2 hmmall hmmlen
              (WhatsAppParser.timeSec_cons_digits ss (['A', 'M']) hssall hsslen)
              (by decide)) ?_
            by_cases h12 : (digitsToNat (x :: xs) : Int) = 12 <;>
              simp [WhatsAppParser.hmsFromCaptures, h12]
          · refine Eq.trans (WhatsAppParser.parseTimeHMS_render x xs mm
              (':' :: (ss ++ [' ', 'A', 'M'])) (some ss) ([' ', 'A', 'M']) (some ('A', 'M'))
              hhdall hlen2 hmmall hmmlen
              (WhatsAppParser.timeSec_cons_digits ss ([' ', 'A', 'M']) hssall hsslen)
              (by decide)) ?_
            by_cases h12 : (digitsToNat (x :: xs) : Int) = 12 <;>
              simp [WhatsAppParser.hmsFromCaptures, h12]
        · subst hc2
          cases sp
          · refine Eq.trans (WhatsAppParser.parseTimeHMS_render x xs mm
              (':' :: (ss ++ ['A', 'm'])) (some ss) (['A', 'm']) (some ('A', 'm'))
              hhdall hlen2 hmmall hmmlen
              (WhatsAppParser.timeSec_cons_digits ss (['A', 'm']) hssall hsslen)
              (by decide)) ?_
            by_cases h12 : (digitsToNat (x :: xs) : Int) = 12 <;>
              simp [WhatsAppParser.hmsFromCaptures, h12]
          · refine Eq.trans (WhatsAppParser.parseTimeHMS_render x xs mm
              (':' :: (ss ++ [' ', 'A', 'm'])) (some ss) ([' ', 'A', 'm']) (some ('A', 'm'))
              hhdall hlen2 hmmall hmmlen
              (WhatsAppParser.timeSec_cons_digits ss ([' ', 'A', 'm']) hssall hsslen)
              (by decide)) ?_
            by_cases h12 : (digitsToNat (x :: xs) : Int) = 12 <;>
              simp [WhatsAppParser.hmsFromCaptures, h12]
      · subst hc1
        rcases hc2 with hc2 | hc2
        · subst hc2
          cases sp
          · refine Eq.trans (WhatsAppParser.parseTimeHMS_render x xs mm
              (':' :: (ss ++ ['a', 'M'])) (some ss) (['a', 'M']) (some ('a', 'M'))
              hhdall hlen2 hmmall hmmlen
              (WhatsAppParser.timeSec_cons_digits ss (['a', 'M']) hssall hsslen)
              (by decide)) ?_
            by_cases h12 : (digitsToNat (x :: xs) : Int) = 12 <;>
              simp [WhatsAppParser.hmsFromCaptures, h12]
          · refine Eq.trans (WhatsAppParser.parseTimeHMS_render x xs mm
              (':' :: (ss ++ [' ', 'a', 'M'])) (some ss) ([' ', 'a', 'M']) (some ('a', 'M'))
              hhdall hlen2 hmmall hmmlen
              (WhatsAppParser.timeSec_cons_digits ss ([' ', 'a', 'M']) hssall hsslen)
              (by decide)) ?_
            by_cases h12 : (digitsToNat (x :: xs) : Int) = 12 <;>
              simp [WhatsAppParser.hmsFromCaptures, h12]
        · subst hc2
          cases sp
          · refine Eq.trans (WhatsAppParser.parseTimeHMS_render x xs mm
              (':' :: (ss ++ ['a', 'm'])) (some ss) (['a', 'm']) (some ('a', 'm'))
              hhdall hlen2 hmmall hmmlen
              (WhatsAppParser.timeSec_cons_digits ss (['a', 'm']) hssall hsslen)
              (by decide)) ?_
            by_cases h12 : (digitsToNat (x :: xs) : Int) = 12 <;>
              simp [WhatsAppParser.hmsFromCaptures, h12]
          · refine Eq.trans (WhatsAppParser.parseTimeHMS_render x xs mm
              (':' :: (ss ++ [' ', 'a', 'm'])) (some ss) ([' ', 'a', 'm']) (some ('a', 'm'))
              hhdall hlen2 hmmall hmmlen
              (WhatsAppParser.timeSec_cons_digits ss ([' ', 'a', 'm']) hssall hsslen)
              (by decide)) ?_
            by_cases h12 : (digitsToNat (x :: xs) : Int) = 12 <;>
              simp [WhatsAppParser.hmsFromCaptures, h12]
      · subst hc1
        rcases hc2 with hc2 | hc2
        · subst hc2
          cases sp
          · refine Eq.trans (WhatsAppParser.parseTimeHMS_render x xs mm
              (':' :: (ss ++ ['P', 'M'])) (some ss) (['P', 'M']) (some ('P', 'M'))
              hhdall hlen2 hmmall hmmlen
              (WhatsAppParser.timeSec_cons_digits ss (['P', 'M']) hssall hsslen)
              (by decide)) ?_
            by_cases h12 : (digitsToNat (x :: xs) : Int) = 12 <;>
              simp [WhatsAppParser.hmsFromCaptures, h12]
          · refine Eq.trans (WhatsAppParser.parseTimeHMS_render x xs mm
              (':' :: (ss ++ [' ', 'P', 'M'])) (some ss) ([' ', 'P', 'M']) (some ('P', 'M'))
              hhdall hlen2 hmmall hmmlen
              (WhatsAppParser.timeSec_cons_digits ss ([' ', 'P', 'M']) hssall hsslen)
              (by decide)) ?_
            by_cases h12 : (digitsToNat (x :: xs) : Int) = 12 <;>
              simp [WhatsAppParser.hmsFromCaptures, h12]
        · subst hc2
          cases sp
          · refine Eq.trans (WhatsAppParser.parseTimeHMS_render x xs mm
              (':' :: (ss ++ ['P', 'm'])) (some ss) (['P', 'm']) (some ('P', 'm'))
              hhdall hlen2 hmmall hmmlen
              (WhatsAppParser.timeSec_cons_digits ss (['P', 'm']) hssall hsslen)
              (by decide)) ?_
            by_cases h12 : (digitsToNat (x :: xs) : Int) = 12 <;>
              simp [WhatsAppParser.hmsFromCaptures, h12]
          · refine Eq.trans (WhatsAppParser.parseTimeHMS_render x xs mm
              (':' :: (ss ++ [' ', 'P', 'm'])) (some ss) ([' ', 'P', 'm']) (some ('P', 'm'))
              hhdall hlen2 hmmall hmmlen
              (WhatsAppParser.timeSec_cons_digits ss ([' ', 'P', 'm']) hssall hsslen)
              (by decide)) ?_
            by_cases h12 : (digitsToNat (x :: xs) : Int) = 12 <;>
              simp [WhatsAppParser.hmsFromCaptures, h12]
      · subst hc1
        rcases hc2 with hc2 | hc2
        · subst hc2
          cases sp
          · refine Eq.trans (WhatsAppParser.parseTimeHMS_render x xs mm
              (':' :: (ss ++ ['p', 'M'])) (some ss) (['p', 'M']) (some ('p', 'M'))
              hhdall hlen2 hmmall hmmlen
              (WhatsAppParser.timeSec_cons_digits ss (['p', 'M']) hssall hsslen)
              (by decide)) ?_
            by_cases h12 : (digitsToNat (x :: xs) : Int) = 12 <;>
              simp [WhatsAppParser.hmsFromCaptures, h12]
          · refine Eq.trans (WhatsAppParser.parseTimeHMS_render x xs mm
              (':' :: (ss ++ [' ', 'p', 'M'])) (some ss) ([' ', 'p', 'M']) (some ('p', 'M'))
              hhdall hlen2 hmmall hmmlen
              (WhatsAppParser.timeSec_cons_digits ss ([' ', 'p', 'M']) hssall hsslen)
              (by decide)) ?_
            by_cases h12 : (digitsToNat (x :: xs) : Int) = 12 <;>
              simp [WhatsAppParser.hmsFromCaptures, h12]
        · subst hc2
          cases sp
          · refine Eq.trans (WhatsAppParser.parseTimeHMS_render x xs mm
              (':' :: (ss ++ ['p', 'm'])) (some ss) (['p', 'm']) (some ('p', 'm'))
              hhdall hlen2 hmmall hmmlen
              (WhatsAppParser.timeSec_cons_digits ss (['p', 'm']) hssall hsslen)
              (by decide)) ?_
            by_cases h12 : (digitsToNat (x :: xs) : Int) = 12 <;>
              simp [WhatsAppParser.hmsFromCaptures, h12]
          · refine Eq.trans (WhatsAppParser.parseTimeHMS_render x xs mm
              (':' :: (ss ++ [' ', 'p', 'm'])) (some ss) ([' ', 'p', 'm']) (some ('p', 'm'))
              hhdall hlen2 hmmall hmmlen
              (WhatsAppParser.timeSec_cons_digits ss ([' ', 'p', 'm']) hssall hsslen)
              (by decide)) ?_
            by_cases h12 : (digitsToNat (x :: xs) : Int) = 12 <;>
              simp [WhatsAppParser.hmsFromCaptures, h12]

theorem c5_twelve_hour_conversion_witness :
    WhatsAppParser.parseTimeHMS "12:00 AM".data = (some 0, some 0, some 0) ∧
    WhatsAppParser.parseTimeHMS "12:00 PM".data = (some 12, some 0, some 0) ∧
    WhatsAppParser.parseTimeHMS "11:59 PM".data = (some 23, some 59, some 0) := by
  refine ⟨?_, ?_, ?_⟩
  · have h := c5_twelve_hour_conversion ['1', '2'] ['0', '0'] none
      (some (true, 'A', 'M')) (by decide) (by decide) (by intro ss hss; cases hss)
      (by intro q hq; cases hq; exact ⟨Or.inl rfl, Or.inl rfl⟩)
    exact Eq.trans (by decide) (h.trans (by decide))
  · have h := c5_twelve_hour_conversion ['1', '2'] ['0', '0'] none
      (some (true, 'P', 'M')) (by decide) (by decide) (by intro ss hss; cases hss)
      (by intro q hq; cases hq; exact ⟨Or.inr (Or.inr (Or.inl rfl)), Or.inl rfl⟩)
    exact Eq.trans (by decide) (h.trans (by decide))
  · have h := c5_twelve_hour_conversion ['1', '1'] ['5', '9'] none
      (some (true, 'P', 'M')) (by decide) (by decide) (by intro ss hss; cases hss)
      (by intro q hq; cases hq; exact ⟨Or.inr (Or.inr (Or.inl rfl)), Or.inl rfl⟩)
    exact Eq.trans (by decide) (h.trans (by decide))

namespace WhatsAppParser

theorem splitEach_cons_pos (p : Char → Bool) (c : Char) (r : List Char) (h : p c = true) :
    splitEach p (c :: r) = [] :: splitEach p r := by
  conv_lhs => unfold splitEach
  rw [if_pos h]

theorem splitEach_cons_neg_cons (p : Char → Bool) (c : Char) (r t : List Char)
    (ts : List (List Char)) (h : p c = false) (hs : splitEach p r = t :: ts) :
    splitEach p (c :: r) = (c :: t) :: ts := by
  conv_lhs => unfold splitEach
  rw [if_neg (by rw [h]; exact Bool.false_ne_true), hs]

theorem splitEach_ne_nil (p : Char → Bool) : ∀ l : List Char, splitEach p l ≠ [] := by
  intro l
  induction l with
  | nil => simp [splitEach]
  | cons c r ih =>
    by_cases h : p c = true
    · rw [splitEach_cons_pos p c r h]
      simp
    · have h2 : p c = false := by
        cases hpc : p c with
        | true => exact absurd hpc h
        | false => rfl
      cases hs : splitEach p r with
      | nil => exact absurd hs ih
      | cons t ts =>
        rw [splitEach_cons_neg_cons p c r t ts h2 hs]
        simp

theorem splitEach_append (p : Char → Bool) (l1 : List Char) (c : Char) (l2 : List Char)
    (hc : p c = true) :
    splitEach p (l1 ++ c :: l2) = splitEach p l1 ++ splitEach p l2 := by
  induction l1 with
  | nil =>
    rw [List.nil_append, splitEach_cons_pos p c l2 hc]
    rfl
  | cons a l1 ih =>
    rw [List.cons_append]
    by_cases ha : p a = true
    · rw [splitEach_cons_pos p a (l1 ++ c :: l2) ha, splitEach_cons_pos p a l1 ha, ih]
      rfl
    · have ha2 : p a = false := by
        cases hpa : p a with
        | true => exact absurd hpa ha
        | false => rfl
      cases hs : splitEach p l1 with
      | nil => exact absurd hs (splitEach_ne_nil p l1)
      | cons t ts =>
        rw [splitEach_cons_neg_cons p a l1 t ts ha2 hs]
        have hs2 : splitEach p (l1 ++ c :: l2) = (t :: ts) ++ splitEach p l2 := by
          rw [ih, hs]
        rw [splitEach_cons_neg_cons p a (l1 ++ c :: l2) t (ts ++ splitEach p l2) ha2
          (by rw [hs2]; rfl)]
        rfl

end WhatsAppParser

/-- **C8**: no line causes a hard parse failure.  First conjunct: for a
text split across a newline, the records of the combined parse are
obtained by continuing the line loop over the second part from
wherever the first part's loop ended — whatever the first part
contains, processing of the remaining lines always continues (no
exception propagates across record boundaries).  Second conjunct: one
loop iteration on ANY line either leaves the accumulated records
unchanged or appends exactly the flushed previous record (with its
best-effort timestamp), so no single line can abort or corrupt the
parse. -/
theorem c8_no_line_aborts :
    (∀ (st : WhatsAppParser.PState) (t1 t2 : List Char),
      (WhatsAppParser.parse st (String.mk (t1 ++ '\n' :: t2))).2.messages =
        (WhatsAppParser.flushCur
          (some (WhatsAppParser.detectDateFormat
            (splitEach (fun c => c == '\n') (t1 ++ '\n' :: t2))).1)
          ((splitEach (fun c => c == '\n') t2).foldl
            (WhatsAppParser.stepLine
              (some (WhatsAppParser.detectDateFormat
                (splitEach (fun c => c == '\n') (t1 ++ '\n' :: t2))).1))
            ((splitEach (fun c => c == '\n') t1).foldl
              (WhatsAppParser.stepLine
                (some (WhatsAppParser.detectDateFormat
                  (splitEach (fun c => c == '\n') (t1 ++ '\n' :: t2))).1))
              ⟨[], [], none⟩))).messages) ∧
    (∀ (fmt : Option WhatsAppParser.DateFmt) (st0 : WhatsAppParser.LoopSt) (l : List Char),
      (WhatsAppParser.stepLine fmt st0 l).messages = st0.messages ∨
      ∃ c, st0.cur = some c ∧
        (WhatsAppParser.stepLine fmt st0 l).messages =
          st0.messages ++ [WhatsAppParser.processMessage fmt c]) := by
  constructor
  · intro st t1 t2
    have hsplit : splitEach (fun c => c == '\n') (t1 ++ '\n' :: t2) =
        splitEach (fun c => c == '\n') t1 ++
          splitEach (fun c => c == '\n') t2 :=
      WhatsAppParser.splitEach_append _ t1 '\n' t2 (by decide)
    show (WhatsAppParser.flushCur
        (some (WhatsAppParser.detectDateFormat
          (splitEach (fun c => c == '\n') (t1 ++ '\n' :: t2))).1)
        ((splitEach (fun c => c == '\n') (t1 ++ '\n' :: t2)).foldl
          (WhatsAppParser.stepLine
            (some (WhatsAppParser.detectDateFormat
              (splitEach (fun c => c == '\n') (t1 ++ '\n' :: t2))).1))
          ⟨[], [], none⟩)).messages = _
    rw [hsplit, List.foldl_append]
  · intro fmt st0 l
    simp only [WhatsAppParser.stepLine]
    split
    · exact Or.inl rfl
    · split
      · cases hc : st0.cur with
        | none =>
          refine Or.inl ?_
          show (WhatsAppParser.flushCur fmt st0).messages = st0.messages
          unfold WhatsAppParser.flushCur
          rw [hc]
        | some c =>
          refine Or.inr ⟨c, rfl, ?_⟩
          show (WhatsAppParser.flushCur fmt st0).messages =
            st0.messages ++ [WhatsAppParser.processMessage fmt c]
          unfold WhatsAppParser.flushCur
          rw [hc]
      · split
        · cases hc : st0.cur with
          | none =>
            refine Or.inl ?_
            show (WhatsAppParser.flushCur fmt st0).messages = st0.messages
            unfold WhatsAppParser.flushCur
            rw [hc]
          | some c =>
            refine Or.inr ⟨c, rfl, ?_⟩
            show (WhatsAppParser.flushCur fmt st0).messages =
              st0.messages ++ [WhatsAppParser.processMessage fmt c]
            unfold WhatsAppParser.flushCur
            rw [hc]
        · split
          · exact Or.inl rfl
          · exact Or.inl rfl

namespace WhatsAppParser

theorem slashOnly_sep3 (c : Char) (h : SimpleParser.slashOnly c = true) : sep3 c = true := by
  simp only [SimpleParser.slashOnly] at h
  simp [sep3, h]

theorem dash2_dash3 (c : Char) (h : dash2 c = true) : dash3 c = true := by
  simp only [dash2, Bool.or_eq_true] at h
  rcases h with h | h <;> simp [dash3, h]

theorem digitsRange_mono (lo hi lo2 hi2 : Nat) (s d r : List Char)
    (hlo : lo2 ≤ lo) (hhi : hi ≤ hi2)
    (h : digitsRange lo hi s = some (d, r)) : digitsRange lo2 hi2 s = some (d, r) := by
  simp only [digitsRange] at h ⊢
  split at h
  · rename_i hcond
    rw [Bool.and_eq_true, decide_eq_true_eq, decide_eq_true_eq] at hcond
    cases h
    split
    · rfl
    · rename_i hcond2
      exact absurd (by
        rw [Bool.and_eq_true, decide_eq_true_eq, decide_eq_true_eq]
        exact ⟨le_trans hlo hcond.1, le_trans hcond.2 hhi⟩) hcond2
  · cases h

theorem digitsRange_head (lo hi : Nat) (s d r : List Char) (hlo : 1 ≤ lo)
    (h : digitsRange lo hi s = some (d, r)) :
    ∃ c cs, s = c :: cs ∧ c.isDigit = true := by
  simp only [digitsRange] at h
  split at h
  · rename_i hcond
    rw [Bool.and_eq_true, decide_eq_true_eq, decide_eq_true_eq] at hcond
    cases s with
    | nil =>
      exfalso
      simp [List.takeWhile] at hcond
      omega
    | cons c cs =>
      refine ⟨c, cs, rfl, ?_⟩
      by_cases hdg : c.isDigit = true
      · exact hdg
      · exfalso
        rw [List.takeWhile_cons] at hcond
        rw [if_neg hdg] at hcond
        simp at hcond
        omega
  · cases h

theorem digitsRange_rest_subset (lo hi : Nat) (s d r : List Char)
    (h : digitsRange lo hi s = some (d, r)) : r ⊆ s := by
  simp only [digitsRange] at h
  split at h
  · cases h
    exact (List.dropWhile_sublist _).subset
  · cases h

end WhatsAppParser

namespace WhatsAppParser

theorem digit_toNat (c : Char) (h : c.isDigit = true) : 48 ≤ c.toNat ∧ c.toNat ≤ 57 := by
  simp only [Char.isDigit, Bool.and_eq_true, decide_eq_true_eq] at h
  exact ⟨h.1, h.2⟩

theorem digit_not_commaOrWs (c : Char) (h : c.isDigit = true) : commaOrWs c = false := by
  obtain ⟨h1, h2⟩ := digit_toNat c h
  cases hco : commaOrWs c with
  | false => rfl
  | true =>
    exfalso
    simp only [commaOrWs, jsWs, Bool.or_eq_true, beq_iff_eq, Bool.and_eq_true,
      decide_eq_true_eq] at hco
    rcases hco with hc |
      ((((((((((((((hc | hc) | hc) | hc) | hc) | hc) | hc) | hc) | hc) | hc) | hc) | hc) |
        hc) | hc) | hc) <;>
      first
        | omega
        | (subst hc; exact absurd h (by decide))

theorem digit_not_jsWs (c : Char) (h : c.isDigit = true) : jsWs c = false := by
  have h2 := digit_not_commaOrWs c h
  cases hj : jsWs c with
  | false => rfl
  | true =>
    rw [commaOrWs, hj, Bool.or_true] at h2
    cases h2

theorem datePart_mono (lo1 hi1 lo2 hi2 lo3 hi3 lo1b hi1b lo2b hi2b lo3b hi3b : Nat)
    (sep sepb : Char → Bool) (hsep : ∀ c, sep c = true → sepb c = true)
    (ha1 : lo1b ≤ lo1) (ha2 : hi1 ≤ hi1b) (ha3 : lo2b ≤ lo2) (ha4 : hi2 ≤ hi2b)
    (ha5 : lo3b ≤ lo3) (ha6 : hi3 ≤ hi3b) (s d r : List Char)
    (h : datePart lo1 hi1 lo2 hi2 lo3 hi3 sep s = some (d, r)) :
    datePart lo1b hi1b lo2b hi2b lo3b hi3b sepb s = some (d, r) := by
  unfold datePart at h ⊢
  obtain ⟨⟨d1, r1⟩, hd1, h⟩ := bind_some_elim _ _ _ h
  rw [digitsRange_mono lo1 hi1 lo1b hi1b s d1 r1 ha1 ha2 hd1, bind_some_eq]
  dsimp only at h ⊢
  cases r1 with
  | nil => cases h
  | cons c1 r2 =>
    dsimp only at h ⊢
    by_cases hc1 : sep c1 = true
    · rw [if_pos hc1] at h
      rw [if_pos (hsep c1 hc1)]
      obtain ⟨⟨d2, r3⟩, hd2, h⟩ := bind_some_elim _ _ _ h
      rw [digitsRange_mono lo2 hi2 lo2b hi2b r2 d2 r3 ha3 ha4 hd2, bind_some_eq]
      dsimp only at h ⊢
      cases r3 with
      | nil => cases h
      | cons c2 r4 =>
        dsimp only at h ⊢
        by_cases hc2 : sep c2 = true
        · rw [if_pos hc2] at h
          rw [if_pos (hsep c2 hc2)]
          obtain ⟨⟨d3, r5⟩, hd3, h⟩ := bind_some_elim _ _ _ h
          rw [digitsRange_mono lo3 hi3 lo3b hi3b r4 d3 r5 ha5 ha6 hd3, bind_some_eq]
          exact h
        · rw [if_neg hc2] at h
          cases h
    · rw [if_neg hc1] at h
      cases h

theorem datePart_rest_subset (lo1 hi1 lo2 hi2 lo3 hi3 : Nat) (sep : Char → Bool)
    (s d r : List Char) (h : datePart lo1 hi1 lo2 hi2 lo3 hi3 sep s = some (d, r)) :
    r ⊆ s := by
  unfold datePart at h
  obtain ⟨⟨d1, r1⟩, hd1, h⟩ := bind_some_elim _ _ _ h
  have hs1 : r1 ⊆ s := digitsRange_rest_subset lo1 hi1 s d1 r1 hd1
  dsimp only at h
  cases r1 with
  | nil => cases h
  | cons c1 r2 =>
    dsimp only at h
    by_cases hc1 : sep c1 = true
    · rw [if_pos hc1] at h
      obtain ⟨⟨d2, r3⟩, hd2, h⟩ := bind_some_elim _ _ _ h
      have hs2 : r3 ⊆ r2 := digitsRange_rest_subset lo2 hi2 r2 d2 r3 hd2
      dsimp only at h
      cases r3 with
      | nil => cases h
      | cons c2 r4 =>
        dsimp only at h
        by_cases hc2 : sep c2 = true
        · rw [if_pos hc2] at h
          obtain ⟨⟨d3, r5⟩, hd3, h⟩ := bind_some_elim _ _ _ h
          have hs3 : r5 ⊆ r4 := digitsRange_rest_subset lo3 hi3 r4 d3 r5 hd3
          cases h
          intro x hx
          apply hs1
          apply List.mem_cons_of_mem
          apply hs2
          apply List.mem_cons_of_mem
          exact hs3 hx
        · rw [if_neg hc2] at h
          cases h
    · rw [if_neg hc1] at h
      cases h

end WhatsAppParser

namespace WhatsAppParser

theorem commaWs_rest_subset (s u r : List Char) (h : commaWs s = some (u, r)) : r ⊆ s := by
  unfold commaWs at h
  split at h
  · split at h
    · cases h
    · rw [Option.some.injEq, Prod.mk.injEq] at h
      intro x hx
      rw [← h.2] at hx
      exact List.mem_cons_of_mem _ ((List.dropWhile_sublist _).subset hx)
  · split at h
    · cases h
    · rw [Option.some.injEq, Prod.mk.injEq] at h
      intro x hx
      rw [← h.2] at hx
      exact (List.dropWhile_sublist _).subset hx

theorem commaWs_to_cls (s u : List Char) (c0 : Char) (cs : List Char)
    (h : commaWs s = some (u, c0 :: cs)) (hc0 : commaOrWs c0 = false) :
    ∃ u2, commaWsCls s = some (u2, c0 :: cs) := by
  unfold commaWs at h
  split at h
  · rename_i r0
    split at h
    · cases h
    · rename_i hne
      rw [Option.some.injEq, Prod.mk.injEq] at h
      obtain ⟨hu, hB⟩ := h
      have hWall : ∀ x ∈ r0.takeWhile jsWs, commaOrWs x = true := by
        intro x hx
        have hws := List.mem_takeWhile_imp hx
        simp [commaOrWs, hws]
      have hr0 : r0.takeWhile jsWs ++ c0 :: cs = r0 := by
        rw [← hB]
        exact List.takeWhile_append_dropWhile jsWs _
      have htk : (',' :: r0).takeWhile commaOrWs = ',' :: r0.takeWhile jsWs := by
        rw [List.takeWhile_cons, if_pos (show commaOrWs ',' = true from by decide)]
        congr 1
        conv_lhs => rw [← hr0]
        exact (takeWhile_append_not commaOrWs (r0.takeWhile jsWs) c0 cs hWall hc0).1
      have hdr : (',' :: r0).dropWhile commaOrWs = c0 :: cs := by
        rw [List.dropWhile_cons, if_pos (show commaOrWs ',' = true from by decide)]
        conv_lhs => rw [← hr0]
        exact (takeWhile_append_not commaOrWs (r0.takeWhile jsWs) c0 cs hWall hc0).2
      refine ⟨',' :: r0.takeWhile jsWs, ?_⟩
      unfold commaWsCls
      rw [htk, hdr, if_neg (by simp)]
  · rename_i hnocomma
    split at h
    · cases h
    · rename_i hne
      rw [Option.some.injEq, Prod.mk.injEq] at h
      obtain ⟨hu, hB⟩ := h
      have hWall : ∀ x ∈ s.takeWhile jsWs, commaOrWs x = true := by
        intro x hx
        have hws := List.mem_takeWhile_imp hx
        simp [commaOrWs, hws]
      have hr0 : s.takeWhile jsWs ++ c0 :: cs = s := by
        rw [← hB]
        exact List.takeWhile_append_dropWhile jsWs _
      have htk : s.takeWhile commaOrWs = s.takeWhile jsWs := by
        conv_lhs => rw [← hr0]
        exact (takeWhile_append_not commaOrWs (s.takeWhile jsWs) c0 cs hWall hc0).1
      have hdr : s.dropWhile commaOrWs = c0 :: cs := by
        conv_lhs => rw [← hr0]
        exact (takeWhile_append_not commaOrWs (s.takeWhile jsWs) c0 cs hWall hc0).2
      refine ⟨s.takeWhile jsWs, ?_⟩
      unfold commaWsCls
      rw [htk, hdr, if_neg hne]

end WhatsAppParser

namespace WhatsAppParser

theorem tailOptDash_mono (t : List Char) (h : (tailOptDash dash2 t).isSome = true) :
    (tailOptDash dash3 t).isSome = true := by
  unfold tailOptDash at h ⊢
  cases hd : t.dropWhile jsWs with
  | nil => rw [hd] at h; exact h
  | cons c r =>
    rw [hd] at h
    dsimp only at h ⊢
    by_cases h2 : dash2 c = true
    · rw [if_pos h2] at h
      rw [if_pos (dash2_dash3 c h2)]
      exact h
    · rw [if_neg h2] at h
      by_cases h3 : dash3 c = true
      · rw [if_pos h3]
        cases hr : tailSenderContent r with
        | some q => rfl
        | none =>
          cases ht : tailSenderContent t with
          | some q => rfl
          | none => rw [ht] at h; cases h
      · rw [if_neg h3]
        exact h

theorem findSome?_isSome_of_mem {α β : Type} (l : List α) (f : α → Option β) (p : α)
    (hp : p ∈ l) (hf : (f p).isSome = true) : (l.findSome? f).isSome = true := by
  induction l with
  | nil => cases hp
  | cons a l ih =>
    rw [List.findSome?_cons]
    cases hfa : f a with
    | some v => rfl
    | none =>
      rcases List.mem_cons.mp hp with h | h
      · subst h
        rw [hfa] at hf
        cases hf
      · exact ih h

theorem digitsExact_rest_subset (n : Nat) (s d r : List Char)
    (h : digitsExact n s = some (d, r)) : r ⊆ s := by
  simp only [digitsExact] at h
  split at h
  · cases h
    exact List.drop_subset n s
  · cases h

theorem merCands_snd_subset (s : List Char) : ∀ q ∈ merCands s, q.2 ⊆ s := by
  intro q hq
  unfold merCands at hq
  rw [List.mem_append] at hq
  rcases hq with hq | hq
  · split at hq
    · rename_i c0 c1 c2 r
      split at hq
      · rw [List.mem_singleton] at hq
        subst hq
        intro x hx
        exact List.mem_cons_of_mem _ (List.mem_cons_of_mem _ (List.mem_cons_of_mem _ hx))
      · cases hq
    · cases hq
  · split at hq
    · rename_i c1 c2 r
      split at hq
      · rw [List.mem_singleton] at hq
        subst hq
        intro x hx
        exact List.mem_cons_of_mem _ (List.mem_cons_of_mem _ hx)
      · cases hq
    · cases hq

theorem secCands_snd_subset (base r3 : List Char) :
    ∀ q ∈ secCands base r3, q.2 ⊆ r3 := by
  intro q hq
  unfold secCands at hq
  split at hq
  · rename_i r4
    split at hq
    · rename_i ss r5 heq
      rcases List.mem_cons.mp hq with hq | hq
      · subst hq
        intro x hx
        exact List.mem_cons_of_mem _ (digitsExact_rest_subset 2 r4 ss r5 heq hx)
      · rw [List.mem_singleton] at hq
        subst hq
        exact fun x hx => hx
    · rw [List.mem_singleton] at hq
      subst hq
      exact fun x hx => hx
  · rw [List.mem_singleton] at hq
    subst hq
    exact fun x hx => hx

theorem timeCands_snd_subset (w : Bool) (s : List Char) :
    ∀ p ∈ timeCands w s, p.2 ⊆ s := by
  intro p hp
  unfold timeCands at hp
  cases hdr : digitsRange 1 2 s with
  | none => rw [hdr] at hp; cases hp
  | some a =>
    obtain ⟨hd, r1⟩ := a
    rw [hdr] at hp
    have hr1 : r1 ⊆ s := digitsRange_rest_subset 1 2 s hd r1 hdr
    dsimp only at hp
    split at hp
    · rename_i r2
      have hr2 : r2 ⊆ s := fun x hx => hr1 (List.mem_cons_of_mem _ hx)
      cases hde : digitsExact 2 r2 with
      | none => rw [hde] at hp; cases hp
      | some b =>
        obtain ⟨mins, r3⟩ := b
        rw [hde] at hp
        dsimp only at hp
        have hr3 : r3 ⊆ s := fun x hx => hr2 (digitsExact_rest_subset 2 r2 mins r3 hde hx)
        by_cases hw : w = true
        · rw [if_pos hw] at hp
          rw [List.mem_flatMap] at hp
          obtain ⟨q0, hq0, hp2⟩ := hp
          have hq0s : q0.2 ⊆ s := fun x hx =>
            hr3 (secCands_snd_subset (hd ++ ':' :: mins) r3 q0 hq0 hx)
          rw [List.mem_append] at hp2
          rcases hp2 with hp2 | hp2
          · rw [List.mem_map] at hp2
            obtain ⟨m0, hm0, hp3⟩ := hp2
            subst hp3
            exact fun x hx => hq0s (merCands_snd_subset q0.2 m0 hm0 hx)
          · rw [List.mem_singleton] at hp2
            subst hp2
            exact hq0s
        · rw [if_neg hw] at hp
          exact fun x hx => hr3 (secCands_snd_subset (hd ++ ':' :: mins) r3 p hp hx)
    · cases hp

end WhatsAppParser

namespace WhatsAppParser

theorem map_isSome {α β : Type} (x : Option α) (f : α → β) :
    (x.map f).isSome = x.isSome := by
  cases x <;> rfl

theorem orElse_isSome_left {α : Type} (x y : Option α) (h : x.isSome = true) :
    (x <|> y).isSome = true := by
  cases x with
  | none => cases h
  | some a => rfl

theorem orElse_isSome_right {α : Type} (x y : Option α) (h : y.isSome = true) :
    (x <|> y).isSome = true := by
  cases x with
  | none => exact h
  | some a => rfl

theorem tailContent_total (t : List Char) (h : ∀ c ∈ t, jsDot c = true) :
    tailContent t = some (t.dropWhile jsWs) := by
  simp only [tailContent]
  rw [if_pos (List.all_eq_true.mpr
    (fun x hx => h x ((List.dropWhile_sublist _).subset hx)))]

theorem msgBody_to_p4msgBody (l : List Char)
    (h : (SimpleParser.msgBody l).isSome = true) : (p4msgBody l).isSome = true := by
  obtain ⟨v, hv⟩ := Option.isSome_iff_exists.mp h
  unfold SimpleParser.msgBody at hv
  obtain ⟨⟨dp, r1⟩, hdp, hv⟩ := bind_some_elim _ _ _ hv
  dsimp only at hv
  obtain ⟨⟨u, r2⟩, hcw, hv⟩ := bind_some_elim _ _ _ hv
  dsimp only at hv
  obtain ⟨p, hpmem, hfp⟩ := findSome?_mem _ _ _ hv
  have hr2head : ∃ c cs, r2 = c :: cs ∧ c.isDigit = true := by
    unfold timeCands at hpmem
    cases hdr : digitsRange 1 2 r2 with
    | none => rw [hdr] at hpmem; cases hpmem
    | some a => exact digitsRange_head 1 2 r2 a.1 a.2 (le_refl 1) (by rw [hdr])
  obtain ⟨c0, cs, hr2eq, hdg⟩ := hr2head
  subst hr2eq
  have hdp2 : datePart 1 4 1 2 1 4 sep3 l = some (dp, r1) :=
    datePart_mono 1 2 1 2 2 4 1 4 1 2 1 4 SimpleParser.slashOnly sep3 slashOnly_sep3
      (by omega) (by omega) (by omega) (by omega) (by omega) (by omega) l dp r1 hdp
  obtain ⟨u2, hcls⟩ := commaWs_to_cls r1 u c0 cs hcw (digit_not_commaOrWs c0 hdg)
  unfold p4msgBody
  rw [hdp2, bind_some_eq]
  dsimp only
  rw [hcls, bind_some_eq]
  dsimp only
  apply findSome?_isSome_of_mem _ _ p hpmem
  dsimp only at hfp ⊢
  split at hfp
  · rename_i r4 heq
    rw [heq]
    rw [heq] at hfp
    dsimp only
    rw [if_pos (by decide)]
    rcases orElse_some_elim _ _ _ hfp with h1 | ⟨_, h1⟩
    · obtain ⟨q, hq, hqv⟩ := map_some_elim _ _ _ h1
      apply orElse_isSome_left
      rw [map_isSome]
      apply tailOptDash_mono
      rw [hq]
      rfl
    · obtain ⟨q, hq, hqv⟩ := map_some_elim _ _ _ h1
      apply orElse_isSome_right
      rw [map_isSome]
      apply tailOptDash_mono
      rw [hq]
      rfl
  · obtain ⟨q, hq, hqv⟩ := map_some_elim _ _ _ hfp
    have hsome2 : (tailOptDash dash3 p.2).isSome = true := by
      apply tailOptDash_mono
      rw [hq]
      rfl
    cases hp2 : p.2 with
    | nil =>
      rw [hp2] at hsome2
      dsimp only
      rw [map_isSome]
      exact hsome2
    | cons c r4 =>
      rw [hp2] at hsome2
      dsimp only
      by_cases hc : (c == ']' || c == ')') = true
      · rw [if_pos hc]
        apply orElse_isSome_right
        rw [map_isSome]
        exact hsome2
      · rw [if_neg hc]
        rw [map_isSome]
        exact hsome2

theorem sysBody_to_p4sysBody (l : List Char) (hall : ∀ c ∈ l, jsDot c = true)
    (h : (SimpleParser.sysBody l).isSome = true) : (p4sysBody l).isSome = true := by
  obtain ⟨v, hv⟩ := Option.isSome_iff_exists.mp h
  unfold SimpleParser.sysBody at hv
  obtain ⟨⟨dp, r1⟩, hdp, hv⟩ := bind_some_elim _ _ _ hv
  dsimp only at hv
  obtain ⟨⟨u, r2⟩, hcw, hv⟩ := bind_some_elim _ _ _ hv
  dsimp only at hv
  obtain ⟨p, hpmem, hfp⟩ := findSome?_mem _ _ _ hv
  have hr2head : ∃ c cs, r2 = c :: cs ∧ c.isDigit = true := by
    unfold timeCands at hpmem
    cases hdr : digitsRange 1 2 r2 with
    | none => rw [hdr] at hpmem; cases hpmem
    | some a => exact digitsRange_head 1 2 r2 a.1 a.2 (le_refl 1) (by rw [hdr])
  obtain ⟨c0, cs, hr2eq, hdg⟩ := hr2head
  subst hr2eq
  have hdp2 : datePart 1 4 1 2 1 4 sep3 l = some (dp, r1) :=
    datePart_mono 1 2 1 2 2 4 1 4 1 2 1 4 SimpleParser.slashOnly sep3 slashOnly_sep3
      (by omega) (by omega) (by omega) (by omega) (by omega) (by omega) l dp r1 hdp
  obtain ⟨u2, hcls⟩ := commaWs_to_cls r1 u c0 cs hcw (digit_not_commaOrWs c0 hdg)
  have hsub : p.2 ⊆ l := by
    intro x hx
    apply datePart_rest_subset 1 2 1 2 2 4 SimpleParser.slashOnly l dp r1 hdp
    apply commaWs_rest_subset r1 u (c0 :: cs) hcw
    exact timeCands_snd_subset true (c0 :: cs) p hpmem hx
  have hallp2 : ∀ c ∈ p.2, jsDot c = true := fun c hc => hall c (hsub hc)
  unfold p4sysBody
  rw [hdp2, bind_some_eq]
  dsimp only
  rw [hcls, bind_some_eq]
  dsimp only
  apply findSome?_isSome_of_mem _ _ p hpmem
  dsimp only
  cases hp2 : p.2 with
  | nil =>
    dsimp only
    rw [map_isSome]
    rfl
  | cons c r4 =>
    have hc4 : ∀ x ∈ c :: r4, jsDot x = true := by
      rw [← hp2]
      exact hallp2
    dsimp only
    by_cases hc : (c == ']' || c == ')') = true
    · rw [if_pos hc]
      apply orElse_isSome_right
      rw [map_isSome, tailContent_total (c :: r4) hc4]
      rfl
    · rw [if_neg hc]
      rw [map_isSome, tailContent_total (c :: r4) hc4]
      rfl

theorem msgBody_paren_none (r : List Char) :
    SimpleParser.msgBody ('(' :: r) = none := by
  have hdr : digitsRange 1 2 ('(' :: r) = none := by
    simp only [digitsRange, List.takeWhile_cons]
    rw [if_neg (show ¬('('.isDigit = true) from by decide)]
    rfl
  have hdp : datePart 1 2 1 2 2 4 SimpleParser.slashOnly ('(' :: r) = none := by
    unfold datePart
    rw [hdr]
    rfl
  unfold SimpleParser.msgBody
  rw [hdp]
  rfl

theorem sysBody_paren_none (r : List Char) :
    SimpleParser.sysBody ('(' :: r) = none := by
  have hdr : digitsRange 1 2 ('(' :: r) = none := by
    simp only [digitsRange, List.takeWhile_cons]
    rw [if_neg (show ¬('('.isDigit = true) from by decide)]
    rfl
  have hdp : datePart 1 2 1 2 2 4 SimpleParser.slashOnly ('(' :: r) = none := by
    unfold datePart
    rw [hdr]
    rfl
  unfold SimpleParser.sysBody
  rw [hdp]
  rfl

theorem messagePattern_to_p4msg (l : List Char)
    (h : (SimpleParser.messagePattern l).isSome = true) : (p4msg l).isSome = true := by
  unfold SimpleParser.messagePattern at h
  split at h
  · rename_i r
    unfold p4msg
    dsimp only
    rw [if_pos (by decide)]
    exact msgBody_to_p4msgBody r h
  · rename_i hne
    cases hl : l with
    | nil =>
      unfold p4msg
      rw [hl] at h
      exact msgBody_to_p4msgBody [] h
    | cons c r =>
      rw [hl] at h
      unfold p4msg
      dsimp only
      by_cases hc : (c == '[' || c == '(') = true
      · rw [if_pos hc]
        have hcval : c = '(' := by
          have hc2 := hc
          rw [Bool.or_eq_true] at hc2
          rcases hc2 with h1 | h1
          · exfalso
            exact hne r (by rw [hl, eq_of_beq h1])
          · exact eq_of_beq h1
        subst hcval
        rw [msgBody_paren_none r] at h
        cases h
      · rw [if_neg hc]
        exact msgBody_to_p4msgBody (c :: r) h

theorem systemPattern_to_p4sys (l : List Char) (hall : ∀ c ∈ l, jsDot c = true)
    (h : (SimpleParser.systemMessagePattern l).isSome = true) :
    (p4sys l).isSome = true := by
  unfold SimpleParser.systemMessagePattern at h
  split at h
  · rename_i r
    unfold p4sys
    dsimp only
    rw [if_pos (by decide)]
    exact sysBody_to_p4sysBody r (fun c hc => hall c (List.mem_cons_of_mem _ hc)) h
  · rename_i hne
    cases hl : l with
    | nil =>
      unfold p4sys
      rw [hl] at h
      exact sysBody_to_p4sysBody [] (fun c hc => absurd hc (List.not_mem_nil c)) h
    | cons c r =>
      rw [hl] at h
      rw [hl] at hall
      unfold p4sys
      dsimp only
      by_cases hc : (c == '[' || c == '(') = true
      · rw [if_pos hc]
        have hcval : c = '(' := by
          have hc2 := hc
          rw [Bool.or_eq_true] at hc2
          rcases hc2 with h1 | h1
          · exfalso
            exact hne r (by rw [hl, eq_of_beq h1])
          · exact eq_of_beq h1
        subst hcval
        rw [sysBody_paren_none r] at h
        cases h
      · rw [if_neg hc]
        exact sysBody_to_p4sysBody (c :: r) hall h

theorem p4msg_to_tryParseMessage (l : List Char) (h : (p4msg l).isSome = true) :
    (tryParseMessage l).isSome = true := by
  unfold tryParseMessage
  cases h1 : p1msg l with
  | some v => obtain ⟨t, s, c⟩ := v; rfl
  | none =>
    cases h2 : p2msg l with
    | some v => obtain ⟨t, s, c⟩ := v; rfl
    | none =>
      cases h3 : p3msg l with
      | some v => obtain ⟨t, s, c⟩ := v; rfl
      | none =>
        cases h4 : p4msg l with
        | some v => obtain ⟨t, s, c⟩ := v; rfl
        | none => rw [h4] at h; cases h

end WhatsAppParser

/-- **C3** (counterexample to capture agreement): on
`[25/03/2024, 10:00] - Alice: hi` both parsers produce a record, but
the richer parser's bracket pattern is tried first and its lazy sender
group swallows the dash (`- Alice`), while the simpler parser's single
pattern consumes the dash and extracts `Alice` — the simpler parser's
records are NOT a subset of the richer parser's. -/
theorem c3_counterexample :
    ((SimpleParser.parse "[25/03/2024, 10:00] - Alice: hi").messages.map
      (fun r => r.sender)) = ["Alice".data] ∧
    ((WhatsAppParser.parse WhatsAppParser.initialState
        "[25/03/2024, 10:00] - Alice: hi").2.messages.map (fun r => r.sender)) =
      ["- Alice".data] ∧
    ((SimpleParser.parse "[25/03/2024, 10:00] - Alice: hi").messages.all
      (fun r => (WhatsAppParser.parse WhatsAppParser.initialState
        "[25/03/2024, 10:00] - Alice: hi").2.messages.contains r)) = false := by
  exact ⟨by decide, by decide, by decide⟩

/-- **C3** (amended): the simpler parser accepts only lines the richer
parser also accepts, and strictly fewer.  Every line matched by the
simpler message pattern is matched by the richer message cascade; every
line (without line-terminator characters, as the parse loop's lines
are) matched by the simpler system pattern is matched by the richer
fourth system pattern; and the richer cascade accepts ISO lines the
simpler slash-only pattern rejects.  (The original claim's assertion
that the extracted captures — and hence the records — agree is refuted
by `c3_counterexample`.) -/
theorem c3_amended :
    (∀ l : List Char, (SimpleParser.messagePattern l).isSome = true →
      (WhatsAppParser.tryParseMessage l).isSome = true) ∧
    (∀ l : List Char, (∀ c ∈ l, jsDot c = true) →
      (SimpleParser.systemMessagePattern l).isSome = true →
      (WhatsAppParser.p4sys l).isSome = true) ∧
    ((WhatsAppParser.tryParseMessage "2024-03-25 10:00 - Bob: yo".data).isSome = true ∧
      SimpleParser.messagePattern "2024-03-25 10:00 - Bob: yo".data = none) := by
  refine ⟨?_, ?_, by decide, by decide⟩
  · intro l h
    exact WhatsAppParser.p4msg_to_tryParseMessage l
      (WhatsAppParser.messagePattern_to_p4msg l h)
  · intro l hall h
    exact WhatsAppParser.systemPattern_to_p4sys l hall h

theorem c3_amended_witness :
    (WhatsAppParser.tryParseMessage "25/03/2024, 10:00 - Alice: hi".data).isSome = true ∧
    (WhatsAppParser.p4sys "25/03/2024, 10:00 - end-to-end encrypted".data).isSome = true := by
  constructor
  · exact c3_amended.1 "25/03/2024, 10:00 - Alice: hi".data (by decide)
  · exact c3_amended.2.1 "25/03/2024, 10:00 - end-to-end encrypted".data (by decide) (by decide)
